import Mathlib

set_option maxHeartbeats 1000000
set_option maxRecDepth 40000

/-!
# Verification of the smart_cloud_tag per-object pipeline

Shallow embedding of the pure core of the `smart_cloud_tag` repository:
the LLM response parser, UTF-8 content truncation, schema validation and
tag merging, custom prompt formatting, and the orchestrator loop from
`core.py`.  Python strings are modelled as `List Char` (for the functions
that manipulate text character-by-character) or Lean `String` (for the
functions that only compare, measure and trim whole strings); Python
dicts of tags are modelled as association lists in insertion order;
Python exceptions are modelled with `Except`.
-/

deriving instance DecidableEq for Except

namespace SmartCloudTag

/-! ## Response parser (`utils.parse_llm_response`) -/

/-- Drop elements satisfying `p` from both ends of a list
(Python `str.strip(chars)`). -/
def dropAround (p : Char → Bool) (l : List Char) : List Char :=
  ((l.dropWhile p).reverse.dropWhile p).reverse

/-- Python `str.strip()`: remove leading and trailing whitespace. -/
def trimList (l : List Char) : List Char :=
  dropAround Char.isWhitespace l

/-- The fixed boilerplate prefixes removed by `parse_llm_response`. -/
def prefixes_to_remove : List (List Char) :=
  ["Generated tags:".data, "Tags:".data, "Values:".data,
   "Here are the tags:".data, "The tags are:".data, "Based on the content:".data]

/-- The `for prefix in prefixes_to_remove: if cleaned.startswith(prefix): ...`
loop of `parse_llm_response`. -/
def removeKnownPrefixes (cleaned : List Char) : List Char :=
  prefixes_to_remove.foldl
    (fun cur p => if p.isPrefixOf cur then trimList (cur.drop p.length) else cur)
    cleaned

/-- Python `str.split(",")`: split on every comma, keeping empty pieces;
the empty string yields `[""]`. -/
def splitComma : List Char → List (List Char)
  | [] => [[]]
  | c :: r =>
    if c = ',' then [] :: splitComma r
    else
      match splitComma r with
      | [] => [[c]]
      | h :: t => (c :: h) :: t

/-- The quote characters stripped from each piece (Python `strip("\x22'")`). -/
def isQuoteChar (c : Char) : Bool :=
  c = '"' || c = Char.ofNat 39

/-- The literal placeholder value `"general"`. -/
def generalValue : List Char := "general".data

/-- The cleaned, split, trimmed, unquoted, non-empty pieces of the raw
LLM completion (`parse_llm_response` before the pad/truncate step). -/
def llmResponseValues (response : List Char) : List (List Char) :=
  ((splitComma (removeKnownPrefixes (trimList response))).map
    (fun v => dropAround isQuoteChar (trimList v))).filter (fun v => !v.isEmpty)

/-- The pad-with-`"general"` / truncate step of `parse_llm_response`. -/
def padToLength (values : List (List Char)) (n : Nat) : List (List Char) :=
  if values.length < n then values ++ List.replicate (n - values.length) generalValue
  else if n < values.length then values.take n
  else values

/-- `utils.parse_llm_response`: parse an LLM completion into exactly one
value per expected tag key. -/
def parse_llm_response (response : List Char) (tag_keys : List (List Char)) :
    Except (List Char) (List (List Char)) :=
  let values := padToLength (llmResponseValues response) tag_keys.length
  if values.length ≠ tag_keys.length then .error "value count mismatch".data
  else .ok values

/-! ## UTF-8 encoding and `utils.truncate_content`

Bytes are modelled as `Nat` values below 256.  `utf8EncodeChar` is the
standard UTF-8 encoding of a unicode scalar value (what Python
`str.encode("utf-8")` produces per character), `utf8Decode` is strict
decoding (Python `bytes.decode("utf-8")`, `none` on error) and
`utf8DecodeLossy` is decoding with `errors="ignore"` (invalid bytes are
skipped). -/

/-- UTF-8 encoding of a single code point (assumed to be a valid unicode
scalar value, as Lean's `Char` and Python's `str` guarantee). -/
def encCharNat (n : Nat) : List Nat :=
  if n < 0x80 then [n]
  else if n < 0x800 then [0xC0 + n / 64, 0x80 + n % 64]
  else if n < 0x10000 then [0xE0 + n / 4096, 0x80 + n / 64 % 64, 0x80 + n % 64]
  else [0xF0 + n / 262144, 0x80 + n / 4096 % 64, 0x80 + n / 64 % 64, 0x80 + n % 64]

/-- UTF-8 encoding of one character. -/
def utf8EncodeChar (c : Char) : List Nat :=
  encCharNat c.toNat

/-- UTF-8 encoding of a string (Python `s.encode("utf-8")`). -/
def utf8Encode : List Char → List Nat
  | [] => []
  | c :: s => utf8EncodeChar c ++ utf8Encode s

/-- Is `b` a UTF-8 continuation byte?  For bytes (values < 256) this is
exactly Python's `b & 0xC0 == 0x80`. -/
def isContByte (b : Nat) : Prop :=
  0x80 ≤ b ∧ b < 0xC0

instance (b : Nat) : Decidable (isContByte b) := by
  unfold isContByte
  infer_instance

/-- The code point encoded by a canonical 2-byte sequence. -/
def cp2 (b b1 : Nat) : Nat := (b - 0xC0) * 64 + (b1 - 0x80)

/-- The code point encoded by a canonical 3-byte sequence. -/
def cp3 (b b1 b2 : Nat) : Nat := (b - 0xE0) * 4096 + (b1 - 0x80) * 64 + (b2 - 0x80)

/-- The code point encoded by a canonical 4-byte sequence. -/
def cp4 (b b1 b2 b3 : Nat) : Nat :=
  (b - 0xF0) * 262144 + (b1 - 0x80) * 4096 + (b2 - 0x80) * 64 + (b3 - 0x80)

/-- Validity of a 2-byte tail: continuation byte, not overlong. -/
def okCp2 (b b1 : Nat) : Prop := isContByte b1 ∧ 0x80 ≤ cp2 b b1

/-- Validity of a 3-byte tail: continuation bytes, not overlong, no surrogate. -/
def okCp3 (b b1 b2 : Nat) : Prop :=
  isContByte b1 ∧ isContByte b2 ∧ 0x800 ≤ cp3 b b1 b2 ∧
    ¬(0xD800 ≤ cp3 b b1 b2 ∧ cp3 b b1 b2 < 0xE000)

/-- Validity of a 4-byte tail: continuation bytes, not overlong, in range. -/
def okCp4 (b b1 b2 b3 : Nat) : Prop :=
  isContByte b1 ∧ isContByte b2 ∧ isContByte b3 ∧
    0x10000 ≤ cp4 b b1 b2 b3 ∧ cp4 b b1 b2 b3 < 0x110000

instance (b b1 : Nat) : Decidable (okCp2 b b1) := by
  unfold okCp2
  infer_instance

instance (b b1 b2 : Nat) : Decidable (okCp3 b b1 b2) := by
  unfold okCp3
  infer_instance

instance (b b1 b2 b3 : Nat) : Decidable (okCp4 b b1 b2 b3) := by
  unfold okCp4
  infer_instance

mutual

/-- Strict UTF-8 decoding (Python `bytes.decode("utf-8")`): rejects
truncated sequences, stray continuation bytes, overlong encodings,
surrogates and out-of-range code points. -/
def utf8Decode : List Nat → Option (List Char)
  | [] => some []
  | b :: bs =>
    if b < 0x80 then (utf8Decode bs).map (fun t => Char.ofNat b :: t)
    else if b < 0xC0 then none
    else if b < 0xE0 then utf8DecodeTwo b bs
    else if b < 0xF0 then utf8DecodeThree b bs
    else if b < 0xF8 then utf8DecodeFour b bs
    else none
termination_by l => (l.length, 0)

/-- Strict decoding of the tail of a 2-byte sequence with lead byte `b`. -/
def utf8DecodeTwo (b : Nat) : List Nat → Option (List Char)
  | [] => none
  | b1 :: bs1 =>
    if okCp2 b b1 then (utf8Decode bs1).map (fun t => Char.ofNat (cp2 b b1) :: t)
    else none
termination_by l => (l.length, 1)

/-- Strict decoding of the tail of a 3-byte sequence with lead byte `b`. -/
def utf8DecodeThree (b : Nat) : List Nat → Option (List Char)
  | b1 :: b2 :: bs2 =>
    if okCp3 b b1 b2 then (utf8Decode bs2).map (fun t => Char.ofNat (cp3 b b1 b2) :: t)
    else none
  | _ => none
termination_by l => (l.length, 1)

/-- Strict decoding of the tail of a 4-byte sequence with lead byte `b`. -/
def utf8DecodeFour (b : Nat) : List Nat → Option (List Char)
  | b1 :: b2 :: b3 :: bs3 =>
    if okCp4 b b1 b2 b3 then
      (utf8Decode bs3).map (fun t => Char.ofNat (cp4 b b1 b2 b3) :: t)
    else none
  | _ => none
termination_by l => (l.length, 1)

end

mutual

/-- UTF-8 decoding with `errors="ignore"`: bytes that do not start a valid
(complete, canonical) sequence are skipped. -/
def utf8DecodeLossy : List Nat → List Char
  | [] => []
  | b :: bs =>
    if b < 0x80 then Char.ofNat b :: utf8DecodeLossy bs
    else if b < 0xC0 then utf8DecodeLossy bs
    else if b < 0xE0 then utf8LossyTwo b bs
    else if b < 0xF0 then utf8LossyThree b bs
    else if b < 0xF8 then utf8LossyFour b bs
    else utf8DecodeLossy bs
termination_by l => (l.length, 0)

/-- Lossy decoding after a 2-byte lead `b`; an invalid tail skips `b`. -/
def utf8LossyTwo (b : Nat) : List Nat → List Char
  | [] => []
  | b1 :: bs1 =>
    if okCp2 b b1 then Char.ofNat (cp2 b b1) :: utf8DecodeLossy bs1
    else utf8DecodeLossy (b1 :: bs1)
termination_by l => (l.length, 1)

/-- Lossy decoding after a 3-byte lead `b`; an invalid tail skips `b`. -/
def utf8LossyThree (b : Nat) : List Nat → List Char
  | b1 :: b2 :: bs2 =>
    if okCp3 b b1 b2 then Char.ofNat (cp3 b b1 b2) :: utf8DecodeLossy bs2
    else utf8DecodeLossy (b1 :: b2 :: bs2)
  | other => utf8DecodeLossy other
termination_by l => (l.length, 1)

/-- Lossy decoding after a 4-byte lead `b`; an invalid tail skips `b`. -/
def utf8LossyFour (b : Nat) : List Nat → List Char
  | b1 :: b2 :: b3 :: bs3 =>
    if okCp4 b b1 b2 b3 then Char.ofNat (cp4 b b1 b2 b3) :: utf8DecodeLossy bs3
    else utf8DecodeLossy (b1 :: b2 :: b3 :: bs3)
  | other => utf8DecodeLossy other
termination_by l => (l.length, 1)

end

/-- The `while truncated_bytes and truncated_bytes[-1] & 0xC0 == 0x80`
loop of `truncate_content`: drop trailing continuation bytes. -/
def dropTrailingCont (bs : List Nat) : List Nat :=
  ((bs.reverse.dropWhile fun b => decide (isContByte b)).reverse)

/-- `utils.truncate_content`: truncate a string so that its UTF-8 encoding
fits in `maxBytes` bytes, never splitting a multi-byte character. -/
def truncate_content (content : List Char) (maxBytes : Nat) : List Char :=
  let contentBytes := utf8Encode content
  if contentBytes.length ≤ maxBytes then content
  else
    let truncatedBytes := contentBytes.take maxBytes
    match utf8Decode truncatedBytes with
    | some s => s
    | none => utf8DecodeLossy (dropTrailingCont truncatedBytes)

/-! ## Schema validation and merging (`schemas.py`, `models.py`)

Tag mappings (Python dicts) are association lists in insertion order with
unique keys; `dictInsert` models `dict.__setitem__` (overwrite in place,
else append) and `dictUpdate` models `dict.update`.  Python's
`str.isalnum` is modelled as ASCII-alphanumeric.  The `SchemaValidationError`
raised by the source is modelled as the `Except.error` case. -/

/-- Python `str.strip()` on a `String`, via the character list (Lean's
`String.trim` is equivalent but does not reduce well in the kernel). -/
def pyStrip (s : String) : String := ⟨trimList s.data⟩

/-- The per-provider tag limits table of `get_provider_tag_limits`. -/
structure TagLimits where
  max_tags : Nat
  max_key : Nat
  max_value : Nat
deriving DecidableEq

/-- `schemas.get_provider_tag_limits`. -/
def get_provider_tag_limits (provider : String) : Except String TagLimits :=
  if provider = "aws" then .ok ⟨10, 128, 256⟩
  else if provider = "azure" then .ok ⟨10, 128, 256⟩
  else if provider = "gcp" then .ok ⟨64, 128, 1024⟩
  else .error ("Unsupported storage provider: " ++ provider)

/-- Run a per-element check over a list, stopping at the first failure
(a Python `for` loop of `raise`-guarded checks). -/
def checkList {α : Type} (f : α → Except String Unit) : List α → Except String Unit
  | [] => .ok ()
  | x :: xs =>
    match f x with
    | .error e => .error e
    | .ok _ => checkList f xs

/-- Python `key.replace("-", "").replace("_", "").isalnum()`
(`str.isalnum` is false on the empty string). -/
def pyIsAlnumCore (key : String) : Bool :=
  let core := key.data.filter (fun ch => ch != '-' && ch != '_')
  !core.isEmpty && core.all (fun ch => ch.isAlphanum)

/-- The per-key checks of `validate_tagging_config`. -/
def checkSchemaKey (limits : TagLimits) (key : String) : Except String Unit :=
  if pyStrip key = "" then .error "Tag keys cannot be empty"
  else if limits.max_key < key.length then .error "Tag key exceeds character limit"
  else if ¬ pyIsAlnumCore key then .error "Tag key contains invalid characters"
  else .ok ()

/-- `models.TaggingConfig`, restricted to the fields the embedded code
uses: the tag schema (key, optional allowed values) in insertion order,
and the byte budget. -/
structure TaggingConfig where
  tags : List (String × Option (List String))
  max_bytes : Nat
deriving DecidableEq

/-- The `validate_tags` pydantic validator of `models.TaggingConfig`. -/
def validate_tags_model (tags : List (String × Option (List String))) :
    Except String Unit :=
  if 10 ≤ tags.length then .error "Tags must be < 10."
  else if tags.length = 0 then .error "tags cannot be empty."
  else .ok ()

/-- `schemas.validate_tagging_config`. -/
def validate_tagging_config (config : TaggingConfig) (provider : String) :
    Except String Unit :=
  match get_provider_tag_limits provider with
  | .error e => .error e
  | .ok limits =>
    if limits.max_tags ≤ config.tags.length then
      .error "Maximum tags per object"
    else if config.tags.length ≠ (config.tags.map (fun kv => kv.1)).dedup.length then
      .error "Tag keys must be unique"
    else checkList (fun kv => checkSchemaKey limits kv.1) config.tags

/-- The per-value checks of `validate_tag_values`. -/
def checkTagValue (limits : TagLimits) (value : String) : Except String Unit :=
  if pyStrip value = "" then .error "Tag value cannot be empty"
  else if limits.max_value < value.length then .error "Tag value exceeds character limit"
  else .ok ()

/-- `schemas.validate_tag_values`. -/
def validate_tag_values (values : List String) (tag_keys : List String)
    (provider : String) : Except String Unit :=
  match get_provider_tag_limits provider with
  | .error e => .error e
  | .ok limits =>
    if values.length ≠ tag_keys.length then .error "Expected values, got values"
    else checkList (checkTagValue limits) values

/-- `schemas.create_tag_mapping`: validate, then zip keys with stripped
values (schema keys are unique, so dict insertion is a plain zip). -/
def create_tag_mapping (tag_keys : List String) (values : List String)
    (provider : String) : Except String (List (String × String)) :=
  match validate_tag_values values tag_keys provider with
  | .error e => .error e
  | .ok _ => .ok (List.zipWith (fun k v => (k, pyStrip v)) tag_keys values)

/-- The per-entry checks of `validate_existing_tags`. -/
def checkExistingEntry (limits : TagLimits) (kv : String × String) :
    Except String Unit :=
  if pyStrip kv.1 = "" then .error "Tag key cannot be empty"
  else if limits.max_key < kv.1.length then .error "Tag key exceeds character limit"
  else if pyStrip kv.2 = "" then .error "Tag value cannot be empty"
  else if limits.max_value < kv.2.length then .error "Tag value exceeds character limit"
  else .ok ()

/-- `schemas.validate_existing_tags`. -/
def validate_existing_tags (tags : List (String × String)) (provider : String) :
    Except String Unit :=
  match get_provider_tag_limits provider with
  | .error e => .error e
  | .ok limits =>
    if limits.max_tags < tags.length then .error "Object exceeds the tag limit"
    else checkList (checkExistingEntry limits) tags

/-- Python `d[k] = v`: overwrite in place if the key exists, else append. -/
def dictInsert {K V : Type} [DecidableEq K] (d : List (K × V)) (kv : K × V) :
    List (K × V) :=
  if d.any (fun x => x.1 = kv.1) then
    d.map (fun x => if x.1 = kv.1 then (x.1, kv.2) else x)
  else d ++ [kv]

/-- Python `d.update(e)`. -/
def dictUpdate {K V : Type} [DecidableEq K] (d : List (K × V)) (e : List (K × V)) :
    List (K × V) :=
  e.foldl dictInsert d

/-- Python `d.get(k)` / `d[k]`. -/
def dictGet {K V : Type} [DecidableEq K] (d : List (K × V)) (k : K) : Option V :=
  (d.find? (fun x => x.1 = k)).map (fun x => x.2)

/-- `schemas.merge_and_validate_tags`. -/
def merge_and_validate_tags (existing_tags new_tags : List (String × String))
    (tag_keys : List String) (provider : String) :
    Except String (List (String × String)) :=
  match get_provider_tag_limits provider with
  | .error e => .error e
  | .ok limits =>
    match validate_existing_tags existing_tags provider with
    | .error e => .error e
    | .ok _ =>
      match validate_tag_values (new_tags.map (fun kv => kv.2)) tag_keys provider with
      | .error e => .error e
      | .ok _ =>
        let merged := dictUpdate
          (existing_tags.filter (fun kv => !(tag_keys.contains kv.1))) new_tags
        if limits.max_tags < merged.length then
          .error "Total tags would exceed the limit"
        else .ok merged

/-! ## Custom prompt formatting (`utils.format_custom_llm_prompt`)

The template and substituted values are character lists.  Python's
`str.format` renders the tags dict with `str()`; the rendered schema
string is abstracted here as the `tagsStr` argument.  `pyFormat` models
`str.format` restricted to plain named replacement fields: `\x7btags\x7d`,
`\x7bcontent\x7d` and `\x7bfilename\x7d` are substituted, any other
replacement field fails (Python raises `KeyError`/`IndexError`), a stray
unmatched brace fails (`ValueError`), and doubled braces escape to a
literal brace. -/

/-- The error cases of the custom prompt builder: the `ValueError` for
missing placeholders, and the errors `str.format` itself raises. -/
inductive FormatError where
  | missing (tokens : List (List Char))
  | badField (field : List Char)
  | strayBrace
deriving DecidableEq

/-- The `required_placeholders` list of `format_custom_llm_prompt`. -/
def requiredPlaceholders : List (List Char) :=
  ["{tags}".data, "{content}".data, "{filename}".data]

/-- Python substring containment (`needle in haystack`). -/
def containsSub (needle : List Char) : List Char → Bool
  | [] => needle.isEmpty
  | x :: t => needle.isPrefixOf (x :: t) || containsSub needle t

mutual

/-- Python `str.format` with keyword arguments `tags`, `content`,
`filename`, restricted to plain named fields. -/
def pyFormat (tagsStr contentStr filenameStr : List Char) :
    List Char → Except FormatError (List Char)
  | [] => .ok []
  | '{' :: t =>
    match t with
    | '{' :: t2 =>
      (pyFormat tagsStr contentStr filenameStr t2).map (fun r => '{' :: r)
    | other => pyFormatField tagsStr contentStr filenameStr [] other
  | '}' :: t =>
    match t with
    | '}' :: t2 =>
      (pyFormat tagsStr contentStr filenameStr t2).map (fun r => '}' :: r)
    | _ => .error .strayBrace
  | ch :: t => (pyFormat tagsStr contentStr filenameStr t).map (fun r => ch :: r)
termination_by l => (l.length, 0)

/-- Parse one replacement field (the characters up to the closing brace)
and substitute its value. -/
def pyFormatField (tagsStr contentStr filenameStr acc : List Char) :
    List Char → Except FormatError (List Char)
  | [] => .error .strayBrace
  | '}' :: t2 =>
    if acc = "tags".data then
      (pyFormat tagsStr contentStr filenameStr t2).map (fun r => tagsStr ++ r)
    else if acc = "content".data then
      (pyFormat tagsStr contentStr filenameStr t2).map (fun r => contentStr ++ r)
    else if acc = "filename".data then
      (pyFormat tagsStr contentStr filenameStr t2).map (fun r => filenameStr ++ r)
    else .error (.badField acc)
  | ch :: t => pyFormatField tagsStr contentStr filenameStr (acc ++ [ch]) t
termination_by l => (l.length, 1)

end

/-- The result described by the spec: the template with the three
placeholder tokens replaced by the schema, content and filename strings. -/
def substPlaceholders (tagsStr contentStr filenameStr : List Char) :
    List Char → List Char
  | [] => []
  | ch :: t =>
    if ch = '{' ∧ "tags\x7d".data.isPrefixOf t then
      tagsStr ++ substPlaceholders tagsStr contentStr filenameStr (t.drop 5)
    else if ch = '{' ∧ "content\x7d".data.isPrefixOf t then
      contentStr ++ substPlaceholders tagsStr contentStr filenameStr (t.drop 8)
    else if ch = '{' ∧ "filename\x7d".data.isPrefixOf t then
      filenameStr ++ substPlaceholders tagsStr contentStr filenameStr (t.drop 9)
    else ch :: substPlaceholders tagsStr contentStr filenameStr t
termination_by l => l.length
decreasing_by all_goals simp [List.length_drop] <;> omega

/-- Template well-formedness: every brace in the template belongs to one
of the three placeholder tokens. -/
def checkTemplate : List Char → Bool
  | [] => true
  | ch :: t =>
    if ch = '{' ∧ "tags\x7d".data.isPrefixOf t then checkTemplate (t.drop 5)
    else if ch = '{' ∧ "content\x7d".data.isPrefixOf t then checkTemplate (t.drop 8)
    else if ch = '{' ∧ "filename\x7d".data.isPrefixOf t then checkTemplate (t.drop 9)
    else ch != '{' && ch != '}' && checkTemplate t
termination_by l => l.length
decreasing_by all_goals simp [List.length_drop] <;> omega

/-- `utils.format_custom_llm_prompt`: collect the missing placeholders in
order and fail naming them all, else substitute via `str.format`. -/
def format_custom_llm_prompt
    (custom_template tagsStr contentStr filenameStr : List Char) :
    Except FormatError (List Char) :=
  let missing := requiredPlaceholders.filter
    (fun p => !(containsSub p custom_template))
  if missing ≠ [] then .error (.missing missing)
  else pyFormat tagsStr contentStr filenameStr custom_template

/-! ## Orchestrator (`core.py`)

`SmartCloudTagger._process_objects` is modelled as a pure function over an
`Env` of external collaborators: object enumeration plus the storage and
LLM backend calls, each an abstract fallible operation (`Except.error`
models a raised Python exception).  `Env.parseContent` abstracts
`utils.parse_file_content`, whose JSON/CSV decoding is done by Python
library code; `truncate_content` and the schema functions are the
embedded definitions above.  Alongside the `TaggingResult` the model
returns the list of attempted `set_object_tags` calls, so that "no write
is performed" is expressible. -/

/-- `models.ProcessingMode`. -/
inductive ProcessingMode where
  | preview
  | apply
deriving DecidableEq

/-- `models.FileType`. -/
inductive FileType where
  | txt
  | md
  | json
  | csv
deriving DecidableEq

/-- `models.ObjectTags`. -/
structure ObjectTags where
  existing : List (String × String)
  proposed : Option (List (String × String))
  applied : Option (List (String × String))
  skipped_reason : Option String
deriving DecidableEq

/-- `schemas.create_object_tags_result`. -/
def create_object_tags_result (existing_tags : List (String × String))
    (proposed_tags applied_tags : Option (List (String × String)))
    (skipped_reason : Option String) : ObjectTags :=
  { existing := existing_tags, proposed := proposed_tags,
    applied := applied_tags, skipped_reason := skipped_reason }

/-- The run summary: either the no-objects message or the derived counts
(`success_rate` as an exact rational; the source computes a float). -/
inductive Summary where
  | message (msg : String)
  | stats (total_objects processed skipped applied : Nat) (success_rate : Rat)
deriving DecidableEq

/-- `models.TaggingResult` (the `config` field is carried by the caller). -/
structure TaggingResult where
  mode : ProcessingMode
  results : List (String × ObjectTags)
  summary : Summary
deriving DecidableEq

/-- `TaggingResult.get_summary_stats`. -/
def get_summary_stats (results : List (String × ObjectTags)) : Summary :=
  .stats results.length
    (results.countP (fun kv => kv.2.proposed.isSome))
    (results.countP (fun kv => kv.2.skipped_reason.isSome))
    (results.countP (fun kv => kv.2.applied.isSome))
    (if 0 < results.length then
      ((results.countP (fun kv => kv.2.proposed.isSome) : Nat) : Rat)
        / ((results.length : Nat) : Rat)
    else 0)

/-- `models.LLMRequest`. -/
structure LLMRequest where
  content : List Char
  tags : List (String × Option (List String))
  filename : String
  custom_prompt_template : Option String

/-- External collaborators of one run (storage backend and LLM backend). -/
structure Env where
  objects : List String
  supported : String → Bool
  getObjectTags : String → Except String (List (String × String))
  getObjectContent : String → Except String (List Nat × FileType)
  parseContent : List Nat → FileType → Except String (List Char)
  generateTags : LLMRequest → Except String (List String)
  setObjectTags : String → List (String × String) → Except String Unit

/-- The `SmartCloudTagger` fields `_process_objects` reads. -/
structure TaggerParams where
  config : TaggingConfig
  storage_provider_type : String
  custom_prompt_template : Option String

/-- Python `max_bytes or self.config.max_bytes` (0 is falsy). -/
def resolveMaxBytes (maxOverride : Option Nat) (configMax : Nat) : Nat :=
  match maxOverride with
  | none => configMax
  | some n => if n = 0 then configMax else n

/-- The fetch → decode → truncate → prompt → parse steps of the per-object
loop (everything inside the outer `try` before the mode branch, after the
supported-file-type check). -/
def pipelineBeforeMode (tp : TaggerParams) (env : Env) (maxB : Nat)
    (key : String) :
    Except String (List (String × String) × List (String × String)) := do
  let existing_tags ← env.getObjectTags key
  let content ← env.getObjectContent key
  let text_content ← env.parseContent content.1 content.2
  let truncated_content := truncate_content text_content maxB
  let llm_request : LLMRequest :=
    { content := truncated_content, tags := tp.config.tags, filename := key,
      custom_prompt_template := tp.custom_prompt_template }
  let llm_tags ← env.generateTags llm_request
  let proposed_tags ← create_tag_mapping
    (tp.config.tags.map (fun kv => kv.1)) llm_tags tp.storage_provider_type
  return (existing_tags, proposed_tags)

/-- One iteration of the `for obj_key in objects` loop: the record stored
for the object, and the `set_object_tags` calls attempted. -/
def processOne (tp : TaggerParams) (env : Env) (maxB : Nat)
    (mode : ProcessingMode) (key : String) :
    ObjectTags × List (String × List (String × String)) :=
  if ¬ env.supported key then
    (create_object_tags_result [] none none (some "Unsupported file type"), [])
  else
    match pipelineBeforeMode tp env maxB key with
    | .error e =>
      (create_object_tags_result [] none none
        (some ("Processing error: " ++ e)), [])
    | .ok (existing_tags, proposed_tags) =>
      match mode with
      | .preview =>
        (create_object_tags_result existing_tags (some proposed_tags)
          none none, [])
      | .apply =>
        match merge_and_validate_tags existing_tags proposed_tags
            (tp.config.tags.map (fun kv => kv.1))
            tp.storage_provider_type with
        | .error e =>
          (create_object_tags_result existing_tags (some proposed_tags) none
            (some ("Failed to apply tags: " ++ e)), [])
        | .ok final_tags =>
          match env.setObjectTags key final_tags with
          | .error e =>
            (create_object_tags_result existing_tags (some proposed_tags) none
              (some ("Failed to apply tags: " ++ e)), [(key, final_tags)])
          | .ok _ =>
            (create_object_tags_result existing_tags (some proposed_tags)
              (some final_tags) none, [(key, final_tags)])

/-- `TaggingResult.add_result`: dict assignment keyed by object URI. -/
def add_result (results : List (String × ObjectTags)) (key : String)
    (tags : ObjectTags) : List (String × ObjectTags) :=
  dictInsert results (key, tags)

/-- The loop body threading the accumulated results and attempted writes. -/
def runStep (tp : TaggerParams) (env : Env) (maxB : Nat)
    (mode : ProcessingMode)
    (acc : List (String × ObjectTags) × List (String × List (String × String)))
    (key : String) :
    List (String × ObjectTags) × List (String × List (String × String)) :=
  (add_result acc.1 key (processOne tp env maxB mode key).1,
    acc.2 ++ (processOne tp env maxB mode key).2)

/-- `SmartCloudTagger._process_objects`. -/
def processObjects (tp : TaggerParams) (env : Env) (mode : ProcessingMode)
    (maxOverride : Option Nat) :
    TaggingResult × List (String × List (String × String)) :=
  let maxB := resolveMaxBytes maxOverride tp.config.max_bytes
  if env.objects = [] then
    ({ mode := mode, results := [],
       summary := .message "No objects found in bucket" }, [])
  else
    let final := env.objects.foldl (runStep tp env maxB mode) ([], [])
    ({ mode := mode, results := final.1,
       summary := get_summary_stats final.1 }, final.2)

/-- `SmartCloudTagger.preview_tags`. -/
def preview_tags (tp : TaggerParams) (env : Env) (maxOverride : Option Nat) :
    TaggingResult × List (String × List (String × String)) :=
  processObjects tp env .preview maxOverride

/-- `SmartCloudTagger.apply_tags`. -/
def apply_tags (tp : TaggerParams) (env : Env) (maxOverride : Option Nat) :
    TaggingResult × List (String × List (String × String)) :=
  processObjects tp env .apply maxOverride

/-- A minimal concrete configuration for the concrete runs below. -/
def exampleParams : TaggerParams :=
  { config := { tags := [("department", none)], max_bytes := 5000 },
    storage_provider_type := "aws",
    custom_prompt_template := none }

/-- An environment whose enumeration yields no objects. -/
def emptyEnv : Env :=
  { objects := []
    supported := fun _ => true
    getObjectTags := fun _ => .error "unreachable"
    getObjectContent := fun _ => .error "unreachable"
    parseContent := fun _ _ => .error "unreachable"
    generateTags := fun _ => .error "unreachable"
    setObjectTags := fun _ _ => .error "unreachable" }

/-- The record the example run stores for `b.txt` in Preview mode. -/
def exampleRecordPreview : ObjectTags :=
  { existing := [("env", "prod")],
    proposed := some [("department", "engineering")],
    applied := none,
    skipped_reason := none }

/-- The record the example run stores for `b.txt` in Apply mode. -/
def exampleRecordApplied : ObjectTags :=
  { existing := [("env", "prod")],
    proposed := some [("department", "engineering")],
    applied := some [("env", "prod"), ("department", "engineering")],
    skipped_reason := none }

/-- A two-object environment: `a.txt` fails while fetching its tags,
`b.txt` processes fully. -/
def exampleEnv : Env :=
  { objects := ["a.txt", "b.txt"]
    supported := fun _ => true
    getObjectTags := fun key =>
      if key = "a.txt" then .error "boom" else .ok [("env", "prod")]
    getObjectContent := fun _ => .ok ([104, 105], .txt)
    parseContent := fun _ _ => .ok "hi".data
    generateTags := fun _ => .ok ["engineering"]
    setObjectTags := fun _ _ => .ok () }

/-- A one-object environment whose tag write is rejected by the backend. -/
def exampleEnvWriteFail : Env :=
  { objects := ["b.txt"]
    supported := fun _ => true
    getObjectTags := fun _ => .ok [("env", "prod")]
    getObjectContent := fun _ => .ok ([104, 105], .txt)
    parseContent := fun _ _ => .ok "hi".data
    generateTags := fun _ => .ok ["engineering"]
    setObjectTags := fun _ _ => .error "denied" }

end SmartCloudTag

namespace SmartCloudTag

/-! ## Lemmas and theorems for the response parser -/

theorem padToLength_length (values : List (List Char)) (n : Nat) :
    (padToLength values n).length = n := by
  unfold padToLength
  split
  · simp only [List.length_append, List.length_replicate]
    omega
  · split
    · simp only [List.length_take]
      omega
    · omega

/-- C1: for every non-empty ordered list of expected tag keys of length N and
every LLM completion string, the response parser returns a list of exactly N
values (obtained by the strip/split/trim/drop-empty/pad/truncate pipeline);
in particular `"a, b"` with N=3 yields `["a","b","general"]` and
`"a, b, c, d"` with N=3 yields `["a","b","c"]`. -/
theorem parse_llm_response_exact_length :
    (∀ (response : List Char) (tag_keys : List (List Char)), tag_keys ≠ [] →
      ∃ vs, parse_llm_response response tag_keys = .ok vs ∧
        vs.length = tag_keys.length)
    ∧ parse_llm_response "a, b".data ["k1".data, "k2".data, "k3".data]
        = .ok ["a".data, "b".data, "general".data]
    ∧ parse_llm_response "a, b, c, d".data ["k1".data, "k2".data, "k3".data]
        = .ok ["a".data, "b".data, "c".data] := by
  refine ⟨fun response tag_keys _ => ?_, by decide, by decide⟩
  refine ⟨padToLength (llmResponseValues response) tag_keys.length, ?_,
    padToLength_length _ _⟩
  unfold parse_llm_response
  rw [if_neg]
  simp [padToLength_length]

theorem parse_llm_response_exact_length_witness :
    ((["dept".data] : List (List Char)) ≠ [] ∧
      ∃ vs, parse_llm_response "x".data ["dept".data] = .ok vs ∧
        vs.length = (["dept".data] : List (List Char)).length) :=
  ⟨by decide, parse_llm_response_exact_length.1 "x".data ["dept".data] (by decide)⟩

theorem dropWhile_eq_nil_of_all {p : Char → Bool} {l : List Char}
    (h : ∀ x ∈ l, p x) : l.dropWhile p = [] := by
  induction l with
  | nil => rfl
  | cons a l ih =>
    rw [List.dropWhile_cons, if_pos (h a (List.mem_cons_self a l))]
    exact ih fun x hx => h x (List.mem_cons_of_mem a hx)

theorem trimList_eq_nil_of_all_whitespace {l : List Char}
    (h : ∀ x ∈ l, x.isWhitespace) : trimList l = [] := by
  unfold trimList dropAround
  rw [dropWhile_eq_nil_of_all h]
  rfl

/-- C10: for every non-empty list of expected tag keys of length N, parsing an
LLM completion that is empty or consists only of whitespace does not raise and
returns N copies of the placeholder value `"general"`. -/
theorem parse_llm_response_whitespace (response : List Char)
    (tag_keys : List (List Char)) (hkeys : tag_keys ≠ [])
    (hws : ∀ c ∈ response, c.isWhitespace) :
    parse_llm_response response tag_keys
      = .ok (List.replicate tag_keys.length generalValue) := by
  have hval : llmResponseValues response = [] := by
    unfold llmResponseValues
    rw [trimList_eq_nil_of_all_whitespace hws]
    rfl
  have hn : 0 < tag_keys.length := List.length_pos.mpr hkeys
  have hpad : padToLength (llmResponseValues response) tag_keys.length
      = List.replicate tag_keys.length generalValue := by
    rw [hval]
    unfold padToLength
    rw [if_pos (by simpa using hn)]
    simp
  unfold parse_llm_response
  rw [hpad, if_neg (by simp)]

theorem parse_llm_response_whitespace_witness :
    ((["dept".data, "env".data] : List (List Char)) ≠ [] ∧
      (∀ c ∈ "  ".data, c.isWhitespace) ∧
      parse_llm_response "  ".data ["dept".data, "env".data]
        = .ok (List.replicate 2 generalValue)) :=
  ⟨by decide, by decide,
    parse_llm_response_whitespace "  ".data ["dept".data, "env".data]
      (by decide) (by decide)⟩

/-! ## Lemmas and theorems for UTF-8 truncation -/

theorem char_toNat_valid (c : Char) :
    c.toNat < 0xD800 ∨ (0xDFFF < c.toNat ∧ c.toNat < 0x110000) :=
  c.valid

theorem utf8EncodeChar_one {c : Char} (h : c.toNat < 0x80) :
    utf8EncodeChar c = [c.toNat] := by
  unfold utf8EncodeChar encCharNat
  rw [if_pos h]

theorem utf8EncodeChar_two {c : Char} (h1 : 0x80 ≤ c.toNat) (h2 : c.toNat < 0x800) :
    utf8EncodeChar c = [0xC0 + c.toNat / 64, 0x80 + c.toNat % 64] := by
  unfold utf8EncodeChar encCharNat
  rw [if_neg (by omega), if_pos h2]

theorem utf8EncodeChar_three {c : Char} (h1 : 0x800 ≤ c.toNat) (h2 : c.toNat < 0x10000) :
    utf8EncodeChar c
      = [0xE0 + c.toNat / 4096, 0x80 + c.toNat / 64 % 64, 0x80 + c.toNat % 64] := by
  unfold utf8EncodeChar encCharNat
  rw [if_neg (by omega), if_neg (by omega), if_pos h2]

theorem utf8EncodeChar_four {c : Char} (h1 : 0x10000 ≤ c.toNat) :
    utf8EncodeChar c
      = [0xF0 + c.toNat / 262144, 0x80 + c.toNat / 4096 % 64,
         0x80 + c.toNat / 64 % 64, 0x80 + c.toNat % 64] := by
  unfold utf8EncodeChar encCharNat
  rw [if_neg (by omega), if_neg (by omega), if_neg (by omega)]

theorem utf8Decode_encodeChar_append (c : Char) (r : List Nat) :
    utf8Decode (utf8EncodeChar c ++ r) = (utf8Decode r).map (fun t => c :: t) := by
  have hv := char_toNat_valid c
  by_cases h1 : c.toNat < 0x80
  · rw [utf8EncodeChar_one h1]
    show utf8Decode (c.toNat :: r) = _
    simp only [utf8Decode]
    rw [if_pos h1, Char.ofNat_toNat]
  · by_cases h2 : c.toNat < 0x800
    · rw [utf8EncodeChar_two (by omega) h2]
      show utf8Decode (_ :: _ :: r) = _
      simp only [utf8Decode]
      rw [if_neg (by omega), if_neg (by omega), if_pos (by omega)]
      simp only [utf8DecodeTwo]
      rw [if_pos (by unfold okCp2 isContByte cp2; omega)]
      have hn : cp2 (0xC0 + c.toNat / 64) (0x80 + c.toNat % 64) = c.toNat := by
        unfold cp2
        omega
      rw [hn, Char.ofNat_toNat]
    · by_cases h3 : c.toNat < 0x10000
      · rw [utf8EncodeChar_three (by omega) h3]
        show utf8Decode (_ :: _ :: _ :: r) = _
        simp only [utf8Decode]
        rw [if_neg (by omega), if_neg (by omega), if_neg (by omega),
          if_pos (by omega)]
        simp only [utf8DecodeThree]
        rw [if_pos (by unfold okCp3 isContByte cp3; omega)]
        have hn : cp3 (0xE0 + c.toNat / 4096) (0x80 + c.toNat / 64 % 64)
            (0x80 + c.toNat % 64) = c.toNat := by
          unfold cp3
          omega
        rw [hn, Char.ofNat_toNat]
      · rw [utf8EncodeChar_four (by omega)]
        show utf8Decode (_ :: _ :: _ :: _ :: r) = _
        simp only [utf8Decode]
        rw [if_neg (by omega), if_neg (by omega), if_neg (by omega),
          if_neg (by omega), if_pos (by omega)]
        simp only [utf8DecodeFour]
        rw [if_pos (by unfold okCp4 isContByte cp4; omega)]
        have hn : cp4 (0xF0 + c.toNat / 262144) (0x80 + c.toNat / 4096 % 64)
            (0x80 + c.toNat / 64 % 64) (0x80 + c.toNat % 64) = c.toNat := by
          unfold cp4
          omega
        rw [hn, Char.ofNat_toNat]

theorem utf8Decode_utf8Encode (s : List Char) :
    utf8Decode (utf8Encode s) = some s := by
  induction s with
  | nil => simp [utf8Encode, utf8Decode]
  | cons c s ih =>
    show utf8Decode (utf8EncodeChar c ++ utf8Encode s) = _
    rw [utf8Decode_encodeChar_append, ih]
    rfl

theorem utf8Decode_append_none (p : List Char) (x : List Nat)
    (hx : utf8Decode x = none) : utf8Decode (utf8Encode p ++ x) = none := by
  induction p with
  | nil => simpa using hx
  | cons c p ih =>
    show utf8Decode ((utf8EncodeChar c ++ utf8Encode p) ++ x) = none
    rw [List.append_assoc, utf8Decode_encodeChar_append, ih]
    rfl

theorem utf8DecodeLossy_encodeChar_append (c : Char) (r : List Nat) :
    utf8DecodeLossy (utf8EncodeChar c ++ r) = c :: utf8DecodeLossy r := by
  have hv := char_toNat_valid c
  by_cases h1 : c.toNat < 0x80
  · rw [utf8EncodeChar_one h1]
    show utf8DecodeLossy (c.toNat :: r) = _
    simp only [utf8DecodeLossy]
    rw [if_pos h1, Char.ofNat_toNat]
  · by_cases h2 : c.toNat < 0x800
    · rw [utf8EncodeChar_two (by omega) h2]
      show utf8DecodeLossy (_ :: _ :: r) = _
      simp only [utf8DecodeLossy]
      rw [if_neg (by omega), if_neg (by omega), if_pos (by omega)]
      simp only [utf8LossyTwo]
      rw [if_pos (by unfold okCp2 isContByte cp2; omega)]
      have hn : cp2 (0xC0 + c.toNat / 64) (0x80 + c.toNat % 64) = c.toNat := by
        unfold cp2
        omega
      rw [hn, Char.ofNat_toNat]
    · by_cases h3 : c.toNat < 0x10000
      · rw [utf8EncodeChar_three (by omega) h3]
        show utf8DecodeLossy (_ :: _ :: _ :: r) = _
        simp only [utf8DecodeLossy]
        rw [if_neg (by omega), if_neg (by omega), if_neg (by omega),
          if_pos (by omega)]
        simp only [utf8LossyThree]
        rw [if_pos (by unfold okCp3 isContByte cp3; omega)]
        have hn : cp3 (0xE0 + c.toNat / 4096) (0x80 + c.toNat / 64 % 64)
            (0x80 + c.toNat % 64) = c.toNat := by
          unfold cp3
          omega
        rw [hn, Char.ofNat_toNat]
      · rw [utf8EncodeChar_four (by omega)]
        show utf8DecodeLossy (_ :: _ :: _ :: _ :: r) = _
        simp only [utf8DecodeLossy]
        rw [if_neg (by omega), if_neg (by omega), if_neg (by omega),
          if_neg (by omega), if_pos (by omega)]
        simp only [utf8LossyFour]
        rw [if_pos (by unfold okCp4 isContByte cp4; omega)]
        have hn : cp4 (0xF0 + c.toNat / 262144) (0x80 + c.toNat / 4096 % 64)
            (0x80 + c.toNat / 64 % 64) (0x80 + c.toNat % 64) = c.toNat := by
          unfold cp4
          omega
        rw [hn, Char.ofNat_toNat]

theorem utf8DecodeLossy_single_lead (b : Nat) (hb : 0xC0 ≤ b) :
    utf8DecodeLossy [b] = [] := by
  simp only [utf8DecodeLossy]
  rw [if_neg (by omega), if_neg (by omega)]
  by_cases h2 : b < 0xE0
  · rw [if_pos h2]
    simp [utf8LossyTwo]
  · rw [if_neg h2]
    by_cases h3 : b < 0xF0
    · rw [if_pos h3]
      simp [utf8LossyThree, utf8DecodeLossy]
    · rw [if_neg h3]
      by_cases h4 : b < 0xF8
      · rw [if_pos h4]
        simp [utf8LossyFour, utf8DecodeLossy]
      · rw [if_neg h4]

theorem utf8DecodeLossy_encode_lead (p : List Char) (b : Nat) (hb : 0xC0 ≤ b) :
    utf8DecodeLossy (utf8Encode p ++ [b]) = p := by
  induction p with
  | nil => simpa using utf8DecodeLossy_single_lead b hb
  | cons c p ih =>
    show utf8DecodeLossy ((utf8EncodeChar c ++ utf8Encode p) ++ [b]) = _
    rw [List.append_assoc, utf8DecodeLossy_encodeChar_append, ih]

theorem utf8Decode_partial_none (c : Char) (m : Nat) (h1 : 0 < m)
    (h2 : m < (utf8EncodeChar c).length) :
    ∃ lead conts, (utf8EncodeChar c).take m = lead :: conts ∧ 0xC0 ≤ lead ∧
      (∀ x ∈ conts, isContByte x) ∧ utf8Decode (lead :: conts) = none := by
  have hv := char_toNat_valid c
  by_cases ha : c.toNat < 0x80
  · rw [utf8EncodeChar_one ha] at h2
    simp at h2
    omega
  · by_cases hbt : c.toNat < 0x800
    · have he := utf8EncodeChar_two (by omega) hbt
      rw [he] at h2 ⊢
      simp only [List.length_cons, List.length_nil] at h2
      have hm : m = 1 := by omega
      subst hm
      refine ⟨0xC0 + c.toNat / 64, [], by simp, by omega, by simp, ?_⟩
      simp only [utf8Decode]
      rw [if_neg (by omega), if_neg (by omega), if_pos (by omega)]
      simp [utf8DecodeTwo]
    · by_cases hct : c.toNat < 0x10000
      · have he := utf8EncodeChar_three (by omega) hct
        rw [he] at h2 ⊢
        simp only [List.length_cons, List.length_nil] at h2
        have hlead1 : (0xC0 : Nat) ≤ 0xE0 + c.toNat / 4096 := by omega
        have hlt : 0xE0 + c.toNat / 4096 < 0xF0 := by omega
        have hm : m = 1 ∨ m = 2 := by omega
        rcases hm with hm | hm
        · subst hm
          refine ⟨0xE0 + c.toNat / 4096, [], by simp, hlead1, by simp, ?_⟩
          simp only [utf8Decode]
          rw [if_neg (by omega), if_neg (by omega), if_neg (by omega),
            if_pos hlt]
          simp [utf8DecodeThree]
        · subst hm
          refine ⟨0xE0 + c.toNat / 4096, [0x80 + c.toNat / 64 % 64], by simp [List.take],
            hlead1, ?_, ?_⟩
          · intro x hx
            simp at hx
            subst hx
            exact ⟨by omega, by omega⟩
          · simp only [utf8Decode]
            rw [if_neg (by omega), if_neg (by omega), if_neg (by omega),
              if_pos hlt]
            simp [utf8DecodeThree]
      · have he := @utf8EncodeChar_four c (by omega)
        rw [he] at h2 ⊢
        simp only [List.length_cons, List.length_nil] at h2
        have hcd : c.toNat < 0x110000 := by omega
        have hlead1 : (0xC0 : Nat) ≤ 0xF0 + c.toNat / 262144 := by omega
        have hge : ¬ (0xF0 + c.toNat / 262144 < 0xF0) := by omega
        have hlt : 0xF0 + c.toNat / 262144 < 0xF8 := by omega
        have hm : m = 1 ∨ m = 2 ∨ m = 3 := by omega
        rcases hm with hm | hm | hm
        · subst hm
          refine ⟨0xF0 + c.toNat / 262144, [], by simp, hlead1, by simp, ?_⟩
          simp only [utf8Decode]
          rw [if_neg (by omega), if_neg (by omega), if_neg (by omega),
            if_neg hge, if_pos hlt]
          simp [utf8DecodeFour]
        · subst hm
          refine ⟨0xF0 + c.toNat / 262144, [0x80 + c.toNat / 4096 % 64],
            by simp [List.take], hlead1, ?_, ?_⟩
          · intro x hx
            simp at hx
            subst hx
            exact ⟨by omega, by omega⟩
          · simp only [utf8Decode]
            rw [if_neg (by omega), if_neg (by omega), if_neg (by omega),
              if_neg hge, if_pos hlt]
            simp [utf8DecodeFour]
        · subst hm
          refine ⟨0xF0 + c.toNat / 262144,
            [0x80 + c.toNat / 4096 % 64, 0x80 + c.toNat / 64 % 64],
            by simp [List.take], hlead1, ?_, ?_⟩
          · intro x hx
            simp at hx
            rcases hx with hx | hx <;> subst hx <;> exact ⟨by omega, by omega⟩
          · simp only [utf8Decode]
            rw [if_neg (by omega), if_neg (by omega), if_neg (by omega),
              if_neg hge, if_pos hlt]
            simp [utf8DecodeFour]

theorem dropWhile_append_all {α : Type} {p : α → Bool} {a b : List α}
    (h : ∀ x ∈ a, p x) : (a ++ b).dropWhile p = b.dropWhile p := by
  induction a with
  | nil => rfl
  | cons x a ih =>
    rw [List.cons_append, List.dropWhile_cons,
      if_pos (h x (List.mem_cons_self x a))]
    exact ih fun y hy => h y (List.mem_cons_of_mem x hy)

theorem dropTrailingCont_spec (xs : List Nat) (lead : Nat) (conts : List Nat)
    (hl : ¬ isContByte lead) (hc : ∀ x ∈ conts, isContByte x) :
    dropTrailingCont (xs ++ lead :: conts) = xs ++ [lead] := by
  unfold dropTrailingCont
  rw [List.reverse_append, List.reverse_cons, List.append_assoc]
  rw [dropWhile_append_all (by
    intro x hx
    simp only [List.mem_reverse] at hx
    exact decide_eq_true (hc x hx))]
  rw [List.singleton_append, List.dropWhile_cons]
  rw [if_neg (by simpa using hl)]
  simp

theorem encode_take_split (s : List Char) (n : Nat) :
    (∃ p q, s = p ++ q ∧ (utf8Encode s).take n = utf8Encode p) ∨
    (∃ p c q m, s = p ++ c :: q ∧ 0 < m ∧ m < (utf8EncodeChar c).length ∧
      (utf8Encode s).take n = utf8Encode p ++ (utf8EncodeChar c).take m) := by
  induction s generalizing n with
  | nil => exact .inl ⟨[], [], rfl, by simp [utf8Encode]⟩
  | cons c s ih =>
    by_cases h0 : n = 0
    · exact .inl ⟨[], c :: s, rfl, by simp [h0, utf8Encode]⟩
    · have hsplit : (utf8Encode (c :: s)).take n
          = (utf8EncodeChar c).take n
            ++ (utf8Encode s).take (n - (utf8EncodeChar c).length) := by
        show (utf8EncodeChar c ++ utf8Encode s).take n = _
        rw [List.take_append_eq_append_take]
      by_cases hk : (utf8EncodeChar c).length ≤ n
      · rw [List.take_of_length_le hk] at hsplit
        rcases ih (n - (utf8EncodeChar c).length) with
          ⟨p, q, hs, ht⟩ | ⟨p, cc, q, m, hs, hm0, hml, ht⟩
        · refine .inl ⟨c :: p, q, by rw [hs, List.cons_append], ?_⟩
          rw [hsplit, ht]
          rfl
        · refine .inr ⟨c :: p, cc, q, m, by rw [hs, List.cons_append], hm0, hml, ?_⟩
          rw [hsplit, ht]
          show _ = (utf8EncodeChar c ++ utf8Encode p) ++ _
          rw [List.append_assoc]
      · refine .inr ⟨[], c, s, n, rfl, by omega, by omega, ?_⟩
        rw [hsplit, show n - (utf8EncodeChar c).length = 0 by omega]
        simp [utf8Encode]

theorem truncate_content_of_le {s : List Char} {n : Nat}
    (h : (utf8Encode s).length ≤ n) : truncate_content s n = s := by
  unfold truncate_content
  rw [if_pos h]

theorem truncate_content_shape (s : List Char) (n : Nat) :
    ∃ q, truncate_content s n ++ q = s ∧
      (utf8Encode (truncate_content s n)).length ≤ n := by
  by_cases hle : (utf8Encode s).length ≤ n
  · rw [truncate_content_of_le hle]
    exact ⟨[], by simp, hle⟩
  · unfold truncate_content
    rw [if_neg hle]
    rcases encode_take_split s n with ⟨p, q, hs, ht⟩ | ⟨p, c, q, m, hs, hm0, hml, ht⟩
    · rw [ht]
      simp only [utf8Decode_utf8Encode]
      refine ⟨q, hs.symm, ?_⟩
      have : (utf8Encode p).length = ((utf8Encode s).take n).length := by rw [ht]
      rw [List.length_take] at this
      omega
    · obtain ⟨lead, conts, hpart, hlead, hconts, hdec⟩ :=
        utf8Decode_partial_none c m hm0 hml
      rw [ht, hpart]
      simp only [utf8Decode_append_none p _ hdec]
      rw [dropTrailingCont_spec _ _ _ (by unfold isContByte; omega) hconts]
      rw [utf8DecodeLossy_encode_lead p lead hlead]
      refine ⟨c :: q, hs.symm, ?_⟩
      have hlen : (utf8Encode p).length + (lead :: conts).length
          = ((utf8Encode s).take n).length := by
        rw [ht, hpart, List.length_append]
      rw [List.length_take] at hlen
      simp only [List.length_cons] at hlen
      omega

/-- C3: for every string and every positive byte budget, the truncation
operation returns a string whose UTF-8 encoding is at most the budget,
which is valid UTF-8 (re-encoding and decoding returns it unchanged),
which is a prefix of the input (no multi-byte character is split), and
truncation is idempotent. -/
theorem truncate_content_spec (s : List Char) (b : Nat) (hpos : 0 < b) :
    (utf8Encode (truncate_content s b)).length ≤ b ∧
    utf8Decode (utf8Encode (truncate_content s b)) = some (truncate_content s b) ∧
    (∃ q, truncate_content s b ++ q = s) ∧
    truncate_content (truncate_content s b) b = truncate_content s b := by
  obtain ⟨q, hq, hlen⟩ := truncate_content_shape s b
  exact ⟨hlen, utf8Decode_utf8Encode _, ⟨q, hq⟩, truncate_content_of_le hlen⟩

theorem truncate_content_spec_witness :
    (0 < 4 ∧
      ((utf8Encode (truncate_content "héllo".data 4)).length ≤ 4 ∧
        utf8Decode (utf8Encode (truncate_content "héllo".data 4))
          = some (truncate_content "héllo".data 4) ∧
        (∃ q, truncate_content "héllo".data 4 ++ q = "héllo".data) ∧
        truncate_content (truncate_content "héllo".data 4) 4
          = truncate_content "héllo".data 4)) :=
  ⟨by decide, truncate_content_spec "héllo".data 4 (by decide)⟩

/-! ## Lemmas and theorems for schema validation and merging -/

theorem checkList_ok {α : Type} (f : α → Except String Unit) (l : List α)
    (h : ∀ x ∈ l, f x = .ok ()) : checkList f l = .ok () := by
  induction l with
  | nil => rfl
  | cons x xs ih =>
    unfold checkList
    rw [h x (List.mem_cons_self x xs)]
    exact ih fun y hy => h y (List.mem_cons_of_mem x hy)

theorem contains_true_iff {l : List String} {a : String} :
    l.contains a = true ↔ a ∈ l := by
  simp [List.contains, List.elem_iff]

theorem dictInsert_append {K V : Type} [DecidableEq K] (d : List (K × V))
    (kv : K × V) (h : ∀ x ∈ d, x.1 ≠ kv.1) : dictInsert d kv = d ++ [kv] := by
  unfold dictInsert
  rw [if_neg]
  simp only [List.any_eq_true, decide_eq_true_eq, not_exists]
  intro x
  exact fun hx => h x hx.1 hx.2

theorem dictUpdate_append {K V : Type} [DecidableEq K] (e : List (K × V)) :
    ∀ d : List (K × V), (∀ kv ∈ e, ∀ x ∈ d, x.1 ≠ kv.1) →
      (e.map (fun kv => kv.1)).Nodup → dictUpdate d e = d ++ e := by
  induction e with
  | nil => intro d _ _; simp [dictUpdate]
  | cons kv e ih =>
    intro d hd hnd
    have hstep : dictUpdate d (kv :: e) = dictUpdate (dictInsert d kv) e := by
      simp [dictUpdate]
    rw [hstep, dictInsert_append d kv (hd kv (List.mem_cons_self kv e))]
    rw [List.map_cons, List.nodup_cons] at hnd
    rw [ih (d ++ [kv]) ?_ hnd.2]
    · simp
    · intro kv2 hkv2 x hx
      rcases List.mem_append.mp hx with hx | hx
      · exact hd kv2 (List.mem_cons_of_mem kv hkv2) x hx
      · rw [List.mem_singleton.mp hx]
        intro he
        exact hnd.1 (he ▸ List.mem_map_of_mem (fun p => p.1) hkv2)

theorem dictGet_append_right {K V : Type} [DecidableEq K] (d e : List (K × V))
    (k : K) (h : ∀ x ∈ d, x.1 ≠ k) : dictGet (d ++ e) k = dictGet e k := by
  unfold dictGet
  rw [List.find?_append]
  have hnone : d.find? (fun x => x.1 = k) = none := by
    rw [List.find?_eq_none]
    intro x hx
    simp only [decide_eq_true_eq]
    exact h x hx
  rw [hnone, Option.none_or]

theorem length_filter_comp_map {α β : Type} (f : α → β) (p : β → Bool)
    (l : List α) : ((l.map f).filter p).length = (l.filter (fun x => p (f x))).length := by
  induction l with
  | nil => rfl
  | cons x l ih =>
    by_cases h : p (f x)
    · simp [List.filter_cons, h, ih]
    · simp [List.filter_cons, h, ih]

theorem length_filter_not_add {α : Type} (p : α → Bool) (l : List α) :
    (l.filter (fun x => !(p x))).length + (l.filter p).length = l.length := by
  induction l with
  | nil => rfl
  | cons x l ih =>
    by_cases h : p x
    · simp [List.filter_cons, h]
      omega
    · simp [List.filter_cons, h]
      omega

theorem length_filter_contains_swap {A B : List String} (hA : A.Nodup)
    (hB : B.Nodup) : (A.filter (fun a => B.contains a)).length
      = (B.filter (fun b => A.contains b)).length := by
  have key : ∀ (X Y : List String), X.Nodup →
      (X.filter (fun a => Y.contains a)).length = (X.toFinset ∩ Y.toFinset).card := by
    intro X Y hX
    rw [← List.toFinset_card_of_nodup (hX.filter _)]
    congr 1
    ext x
    simp only [List.mem_toFinset, List.mem_filter, Finset.mem_inter,
      contains_true_iff]
  rw [key A B hA, key B A hB, Finset.inter_comm]

/-- C2 helper: the count identity for the merge, phrased exactly as the
claim counts: `k1 - s + k2` with `s` the number of schema keys present
in the existing tags. -/
theorem merged_length_eq (existing_tags new_tags : List (String × String))
    (tag_keys : List String)
    (hnodup : (existing_tags.map (fun kv => kv.1)).Nodup)
    (hknodup : tag_keys.Nodup) :
    (existing_tags.filter (fun kv => !(tag_keys.contains kv.1)) ++ new_tags).length
      = existing_tags.length
        - (tag_keys.filter
            (fun k => (existing_tags.map (fun kv => kv.1)).contains k)).length
        + new_tags.length := by
  rw [List.length_append]
  have hswap : (tag_keys.filter
        (fun k => (existing_tags.map (fun kv => kv.1)).contains k)).length
      = (existing_tags.filter (fun kv => tag_keys.contains kv.1)).length := by
    rw [length_filter_contains_swap hknodup hnodup]
    exact length_filter_comp_map (fun kv : String × String => kv.1)
      (fun k => tag_keys.contains k) existing_tags
  have hsplit := length_filter_not_add
    (fun kv : String × String => tag_keys.contains kv.1) existing_tags
  rw [hswap]
  omega

/-- C2: merging proposed tags into existing tags removes the schema keys
from the existing tags and overlays the proposed tags (for a key present
in both, the merged value is the proposed value), the merged count equals
`k1 - s + k2` with `s` the number of schema keys present in the existing
tags, and when that count exceeds the backend max-tag-count the merge
fails with `SchemaValidationError` and returns no mapping.  The embedded
merge is a pure function: it performs no I/O. -/
theorem merge_and_validate_tags_spec
    (existing_tags new_tags : List (String × String)) (tag_keys : List String)
    (provider : String) (limits : TagLimits)
    (hlim : get_provider_tag_limits provider = .ok limits)
    (hnodup : (existing_tags.map (fun kv => kv.1)).Nodup)
    (hkeys : new_tags.map (fun kv => kv.1) = tag_keys)
    (hknodup : tag_keys.Nodup)
    (hexvalid : ∀ kv ∈ existing_tags, checkExistingEntry limits kv = .ok ())
    (hnewvalid : ∀ kv ∈ new_tags, checkTagValue limits kv.2 = .ok ()) :
    ((existing_tags.filter (fun kv => !(tag_keys.contains kv.1)) ++ new_tags).length
        = existing_tags.length
          - (tag_keys.filter
              (fun k => (existing_tags.map (fun kv => kv.1)).contains k)).length
          + new_tags.length) ∧
    ((existing_tags.filter (fun kv => !(tag_keys.contains kv.1)) ++ new_tags).length
          ≤ limits.max_tags →
      merge_and_validate_tags existing_tags new_tags tag_keys provider
          = .ok (existing_tags.filter (fun kv => !(tag_keys.contains kv.1))
              ++ new_tags)
        ∧ ∀ k ∈ tag_keys,
            dictGet (existing_tags.filter (fun kv => !(tag_keys.contains kv.1))
                ++ new_tags) k
              = dictGet new_tags k) ∧
    (limits.max_tags
        < (existing_tags.filter (fun kv => !(tag_keys.contains kv.1))
            ++ new_tags).length →
      ∃ e, merge_and_validate_tags existing_tags new_tags tag_keys provider
        = .error e) := by
  have hcount := merged_length_eq existing_tags new_tags tag_keys hnodup hknodup
  have hk2 : new_tags.length = tag_keys.length := by
    rw [← hkeys, List.length_map]
  have hFkeys : ∀ x ∈ existing_tags.filter (fun kv => !(tag_keys.contains kv.1)),
      x.1 ∉ tag_keys := by
    intro x hx hmem
    have hcond := (List.mem_filter.mp hx).2
    rw [contains_true_iff.mpr hmem] at hcond
    simp at hcond
  have hupd : dictUpdate
      (existing_tags.filter (fun kv => !(tag_keys.contains kv.1))) new_tags
      = existing_tags.filter (fun kv => !(tag_keys.contains kv.1)) ++ new_tags := by
    apply dictUpdate_append
    · intro kv hkv x hx he
      exact hFkeys x hx (he ▸ (hkeys ▸ List.mem_map_of_mem (fun p => p.1) hkv))
    · rw [hkeys]
      exact hknodup
  have hvv : validate_tag_values (new_tags.map (fun kv => kv.2)) tag_keys provider
      = .ok () := by
    unfold validate_tag_values
    simp only [hlim]
    rw [if_neg (by
      rw [List.length_map, hk2]
      exact fun h => h rfl)]
    apply checkList_ok
    intro v hv
    obtain ⟨kv, hkv, rfl⟩ := List.mem_map.mp hv
    exact hnewvalid kv hkv
  have hsle1 : (tag_keys.filter
      (fun k => (existing_tags.map (fun kv => kv.1)).contains k)).length
      ≤ tag_keys.length := List.length_filter_le _ _
  refine ⟨hcount, ?_, ?_⟩
  · intro hM
    have hk1 : existing_tags.length ≤ limits.max_tags := by omega
    have hve : validate_existing_tags existing_tags provider = .ok () := by
      unfold validate_existing_tags
      simp only [hlim]
      rw [if_neg (by omega)]
      exact checkList_ok _ _ hexvalid
    constructor
    · unfold merge_and_validate_tags
      simp only [hlim, hve, hvv, hupd]
      rw [if_neg (by omega)]
    · intro k hk
      exact dictGet_append_right _ _ k (fun x hx he => hFkeys x hx (he ▸ hk))
  · intro hM
    by_cases hk1 : limits.max_tags < existing_tags.length
    · refine ⟨"Object exceeds the tag limit", ?_⟩
      have hve : validate_existing_tags existing_tags provider
          = .error "Object exceeds the tag limit" := by
        unfold validate_existing_tags
        simp only [hlim]
        rw [if_pos hk1]
      unfold merge_and_validate_tags
      simp only [hlim, hve]
    · refine ⟨"Total tags would exceed the limit", ?_⟩
      have hve : validate_existing_tags existing_tags provider = .ok () := by
        unfold validate_existing_tags
        simp only [hlim]
        rw [if_neg hk1]
        exact checkList_ok _ _ hexvalid
      unfold merge_and_validate_tags
      simp only [hlim, hve, hvv, hupd]
      rw [if_pos hM]

theorem merge_and_validate_tags_spec_witness :
    (get_provider_tag_limits "aws" = .ok ⟨10, 128, 256⟩ ∧
      ((([("department", "labs"), ("env", "prod")] : List (String × String)).map
          (fun kv => kv.1)).Nodup) ∧
      ([("department", "billing")] : List (String × String)).map (fun kv => kv.1)
        = ["department"] ∧
      (["department"] : List String).Nodup ∧
      (∀ kv ∈ ([("department", "labs"), ("env", "prod")] : List (String × String)),
        checkExistingEntry ⟨10, 128, 256⟩ kv = .ok ()) ∧
      (∀ kv ∈ ([("department", "billing")] : List (String × String)),
        checkTagValue ⟨10, 128, 256⟩ kv.2 = .ok ())) ∧
    (([("department", "labs"), ("env", "prod")].filter
        (fun kv => !((["department"] : List String).contains kv.1))
        ++ [("department", "billing")]).length
      = ([("department", "labs"), ("env", "prod")] : List (String × String)).length
        - ((["department"] : List String).filter
            (fun k => (([("department", "labs"), ("env", "prod")]
              : List (String × String)).map (fun kv => kv.1)).contains k)).length
        + ([("department", "billing")] : List (String × String)).length) :=
  ⟨⟨by decide, by decide, by decide, by decide, by decide, by decide⟩,
    (merge_and_validate_tags_spec [("department", "labs"), ("env", "prod")]
      [("department", "billing")] ["department"] "aws" ⟨10, 128, 256⟩
      (by decide) (by decide) (by decide) (by decide) (by decide) (by decide)).1⟩

theorem checkSchemaKey_ok {limits : TagLimits} {key : String}
    (h1 : pyStrip key ≠ "") (h2 : key.length ≤ limits.max_key)
    (h3 : pyIsAlnumCore key = true) : checkSchemaKey limits key = .ok () := by
  unfold checkSchemaKey
  rw [if_neg h1, if_neg (by omega), if_neg (by simp [h3])]

/-- C4: against the fixed limits table {aws:10, azure:10, gcp:64}, a schema
whose keys are all non-blank, within the key-length limit and alphanumeric
plus dash/underscore fails with `SchemaValidationError` exactly when the
key count is `≥` the backend max-tag-count; a 10-key schema is rejected on
aws, a 9-key schema accepted, a 63-key schema accepted on gcp, and an
unknown backend identifier fails with the same error kind. -/
theorem validate_tagging_config_spec :
    (get_provider_tag_limits "aws" = .ok ⟨10, 128, 256⟩ ∧
      get_provider_tag_limits "azure" = .ok ⟨10, 128, 256⟩ ∧
      get_provider_tag_limits "gcp" = .ok ⟨64, 128, 1024⟩) ∧
    (∀ (config : TaggingConfig) (provider : String) (limits : TagLimits),
      get_provider_tag_limits provider = .ok limits →
      (config.tags.map (fun kv => kv.1)).Nodup →
      (∀ kv ∈ config.tags, pyStrip kv.1 ≠ "" ∧ kv.1.length ≤ limits.max_key ∧
        pyIsAlnumCore kv.1 = true) →
      ((config.tags.length < limits.max_tags →
          validate_tagging_config config provider = .ok ()) ∧
        (limits.max_tags ≤ config.tags.length →
          ∃ e, validate_tagging_config config provider = .error e))) ∧
    (∀ (config : TaggingConfig) (provider : String),
      provider ≠ "aws" → provider ≠ "azure" → provider ≠ "gcp" →
      ∃ e, validate_tagging_config config provider = .error e) ∧
    (∃ e, validate_tagging_config
        ⟨(List.range 10).map (fun i => (String.mk (List.replicate (i + 1) 'k'), none)),
          5000⟩ "aws" = .error e) ∧
    validate_tagging_config
        ⟨(List.range 9).map (fun i => (String.mk (List.replicate (i + 1) 'k'), none)),
          5000⟩ "aws" = .ok () ∧
    validate_tagging_config
        ⟨(List.range 63).map (fun i => (String.mk (List.replicate (i + 1) 'k'), none)),
          5000⟩ "gcp" = .ok () := by
  refine ⟨⟨by decide, by decide, by decide⟩, ?_, ?_,
    ⟨"Maximum tags per object", by decide⟩, by decide, by decide⟩
  · intro config provider limits hlim hnodup hvalid
    constructor
    · intro hlt
      unfold validate_tagging_config
      simp only [hlim]
      rw [if_neg (by omega)]
      rw [if_neg (by
        rw [List.Nodup.dedup hnodup, List.length_map]
        exact fun h => h rfl)]
      exact checkList_ok _ _ fun kv hkv =>
        checkSchemaKey_ok (hvalid kv hkv).1 (hvalid kv hkv).2.1 (hvalid kv hkv).2.2
    · intro hge
      refine ⟨"Maximum tags per object", ?_⟩
      unfold validate_tagging_config
      simp only [hlim]
      rw [if_pos hge]
  · intro config provider h1 h2 h3
    refine ⟨"Unsupported storage provider: " ++ provider, ?_⟩
    unfold validate_tagging_config get_provider_tag_limits
    rw [if_neg h1, if_neg h2, if_neg h3]

theorem validate_tagging_config_spec_witness :
    (get_provider_tag_limits "aws" = .ok ⟨10, 128, 256⟩ ∧
      ((([("env", (none : Option (List String)))]).map (fun kv => kv.1)).Nodup) ∧
      (∀ kv ∈ [("env", (none : Option (List String)))],
        pyStrip kv.1 ≠ "" ∧ kv.1.length ≤ (128 : Nat) ∧ pyIsAlnumCore kv.1 = true) ∧
      validate_tagging_config ⟨[("env", none)], 5000⟩ "aws" = .ok ()) :=
  ⟨by decide, by decide, by decide,
    (validate_tagging_config_spec.2.1 ⟨[("env", none)], 5000⟩ "aws" ⟨10, 128, 256⟩
      (by decide) (by decide) (by decide)).1 (by decide)⟩

/-! ## Lemmas and theorems for custom prompt formatting -/

theorem isPrefixOf_exists {l t : List Char} (h : l.isPrefixOf t = true) :
    ∃ u, t = l ++ u := by
  induction l generalizing t with
  | nil => exact ⟨t, rfl⟩
  | cons x l ih =>
    match t with
    | [] => simp [List.isPrefixOf] at h
    | y :: t =>
      simp only [List.isPrefixOf, Bool.and_eq_true, beq_iff_eq] at h
      obtain ⟨rfl, h2⟩ := h
      obtain ⟨u, rfl⟩ := ih h2
      exact ⟨u, rfl⟩

theorem pyFormatField_walk (a b c : List Char) (field : List Char)
    (hf : ∀ ch ∈ field, ch ≠ '}') :
    ∀ (acc rest : List Char),
      pyFormatField a b c acc (field ++ '}' :: rest)
        = if acc ++ field = "tags".data then
            (pyFormat a b c rest).map (fun r => a ++ r)
          else if acc ++ field = "content".data then
            (pyFormat a b c rest).map (fun r => b ++ r)
          else if acc ++ field = "filename".data then
            (pyFormat a b c rest).map (fun r => c ++ r)
          else .error (.badField (acc ++ field)) := by
  induction field with
  | nil =>
    intro acc rest
    simp only [List.nil_append, List.append_nil]
    simp [pyFormatField]
  | cons ch field ih =>
    intro acc rest
    have hch : ch ≠ '}' := hf ch (List.mem_cons_self ch field)
    show pyFormatField a b c acc (ch :: (field ++ '}' :: rest)) = _
    rw [show pyFormatField a b c acc (ch :: (field ++ '}' :: rest))
        = pyFormatField a b c (acc ++ [ch]) (field ++ '}' :: rest) by
      simp [pyFormatField, hch]]
    rw [ih (fun x hx => hf x (List.mem_cons_of_mem ch hx)) (acc ++ [ch]) rest]
    simp [List.append_assoc]

theorem pyFormatField_tags (a b c rest : List Char) :
    pyFormatField a b c [] ("tags".data ++ '}' :: rest)
      = (pyFormat a b c rest).map (fun r => a ++ r) := by
  rw [pyFormatField_walk a b c "tags".data (by decide) [] rest]
  simp

theorem pyFormatField_content (a b c rest : List Char) :
    pyFormatField a b c [] ("content".data ++ '}' :: rest)
      = (pyFormat a b c rest).map (fun r => b ++ r) := by
  rw [pyFormatField_walk a b c "content".data (by decide) [] rest]
  simp

theorem pyFormatField_filename (a b c rest : List Char) :
    pyFormatField a b c [] ("filename".data ++ '}' :: rest)
      = (pyFormat a b c rest).map (fun r => c ++ r) := by
  rw [pyFormatField_walk a b c "filename".data (by decide) [] rest]
  simp

theorem pyFormat_of_checkTemplate (a b c : List Char) :
    ∀ (n : Nat) (t : List Char), t.length ≤ n → checkTemplate t = true →
      pyFormat a b c t = .ok (substPlaceholders a b c t) := by
  intro n
  induction n with
  | zero =>
    intro t hlen _
    have ht : t = [] := List.eq_nil_of_length_eq_zero (by omega)
    subst ht
    simp [pyFormat, substPlaceholders]
  | succ n ih =>
    intro t hlen hc
    match t with
    | [] => simp [pyFormat, substPlaceholders]
    | ch :: t =>
      by_cases h1 : ch = '{' ∧ "tags\x7d".data.isPrefixOf t = true
      · obtain ⟨rfl, hp⟩ := h1
        obtain ⟨t2, rfl⟩ := isPrefixOf_exists hp
        have hcond : ('{' : Char) = '{'
            ∧ "tags\x7d".data.isPrefixOf ("tags\x7d".data ++ t2) = true := ⟨rfl, hp⟩
        have hdrop : ("tags\x7d".data ++ t2).drop 5 = t2 :=
          List.drop_left' (by decide)
        rw [checkTemplate, if_pos hcond, hdrop] at hc
        have hlen2 : t2.length ≤ n := by
          have h5 : ("tags\x7d".data).length = 5 := by decide
          simp only [List.length_cons, List.length_append, h5] at hlen
          omega
        have hfmt : pyFormat a b c ('{' :: ("tags\x7d".data ++ t2))
            = pyFormatField a b c [] ("tags".data ++ '}' :: t2) := by
          simp [pyFormat]
        rw [hfmt, pyFormatField_tags, ih t2 hlen2 hc]
        rw [substPlaceholders, if_pos hcond, hdrop]
        rfl
      · by_cases h2 : ch = '{' ∧ "content\x7d".data.isPrefixOf t = true
        · obtain ⟨rfl, hp⟩ := h2
          obtain ⟨t2, rfl⟩ := isPrefixOf_exists hp
          have hcond : ('{' : Char) = '{'
              ∧ "content\x7d".data.isPrefixOf ("content\x7d".data ++ t2) = true :=
            ⟨rfl, hp⟩
          have hdrop : ("content\x7d".data ++ t2).drop 8 = t2 :=
            List.drop_left' (by decide)
          rw [checkTemplate, if_neg h1, if_pos hcond, hdrop] at hc
          have hlen2 : t2.length ≤ n := by
            have h8 : ("content\x7d".data).length = 8 := by decide
            simp only [List.length_cons, List.length_append, h8] at hlen
            omega
          have hfmt : pyFormat a b c ('{' :: ("content\x7d".data ++ t2))
              = pyFormatField a b c [] ("content".data ++ '}' :: t2) := by
            simp [pyFormat]
          rw [hfmt, pyFormatField_content, ih t2 hlen2 hc]
          rw [substPlaceholders, if_neg h1, if_pos hcond, hdrop]
          rfl
        · by_cases h3 : ch = '{' ∧ "filename\x7d".data.isPrefixOf t = true
          · obtain ⟨rfl, hp⟩ := h3
            obtain ⟨t2, rfl⟩ := isPrefixOf_exists hp
            have hcond : ('{' : Char) = '{'
                ∧ "filename\x7d".data.isPrefixOf ("filename\x7d".data ++ t2) = true :=
              ⟨rfl, hp⟩
            have hdrop : ("filename\x7d".data ++ t2).drop 9 = t2 :=
              List.drop_left' (by decide)
            rw [checkTemplate, if_neg h1, if_neg h2, if_pos hcond, hdrop] at hc
            have hlen2 : t2.length ≤ n := by
              have h9 : ("filename\x7d".data).length = 9 := by decide
              simp only [List.length_cons, List.length_append, h9] at hlen
              omega
            have hfmt : pyFormat a b c ('{' :: ("filename\x7d".data ++ t2))
                = pyFormatField a b c [] ("filename".data ++ '}' :: t2) := by
              simp [pyFormat]
            rw [hfmt, pyFormatField_filename, ih t2 hlen2 hc]
            rw [substPlaceholders, if_neg h1, if_neg h2, if_pos hcond, hdrop]
            rfl
          · rw [checkTemplate, if_neg h1, if_neg h2, if_neg h3] at hc
            simp only [Bool.and_eq_true, bne_iff_ne] at hc
            obtain ⟨⟨hch1, hch2⟩, hct⟩ := hc
            have hlen2 : t.length ≤ n := by
              simp only [List.length_cons] at hlen
              omega
            have hfmt : pyFormat a b c (ch :: t)
                = (pyFormat a b c t).map (fun r => ch :: r) := by
              simp [pyFormat, hch1, hch2]
            have hn1 : ¬(ch = '{' ∧ "tags\x7d".data.isPrefixOf t = true) :=
              fun h => hch1 h.1
            have hn2 : ¬(ch = '{' ∧ "content\x7d".data.isPrefixOf t = true) :=
              fun h => hch1 h.1
            have hn3 : ¬(ch = '{' ∧ "filename\x7d".data.isPrefixOf t = true) :=
              fun h => hch1 h.1
            rw [hfmt, ih t hlen2 hct]
            rw [substPlaceholders, if_neg hn1, if_neg hn2, if_neg hn3]
            rfl

/-- C9 (amended): building a custom prompt fails with a validation error
naming every absent placeholder token whenever at least one of
`\x7btags\x7d`, `\x7bcontent\x7d`, `\x7bfilename\x7d` is absent; when all
three are present and the template contains no other replacement fields
or stray braces, the result is the template with the three tokens
replaced by the schema, content and filename strings. -/
theorem format_custom_llm_prompt_spec
    (custom_template tagsStr contentStr filenameStr : List Char) :
    (requiredPlaceholders.filter
        (fun p => !(containsSub p custom_template)) ≠ [] →
      format_custom_llm_prompt custom_template tagsStr contentStr filenameStr
        = .error (.missing (requiredPlaceholders.filter
            (fun p => !(containsSub p custom_template))))) ∧
    (requiredPlaceholders.filter
        (fun p => !(containsSub p custom_template)) = [] →
      checkTemplate custom_template = true →
      format_custom_llm_prompt custom_template tagsStr contentStr filenameStr
        = .ok (substPlaceholders tagsStr contentStr filenameStr
            custom_template)) := by
  constructor
  · intro hmiss
    unfold format_custom_llm_prompt
    rw [if_pos hmiss]
  · intro hmiss hcheck
    unfold format_custom_llm_prompt
    rw [if_neg (by rw [hmiss]; exact fun h => h rfl)]
    exact pyFormat_of_checkTemplate tagsStr contentStr filenameStr
      custom_template.length custom_template (Nat.le_refl _) hcheck

theorem format_custom_llm_prompt_spec_witness :
    ((requiredPlaceholders.filter
        (fun p => !(containsSub p "a {tags} b {content} c {filename} d".data)))
        = [] ∧
      checkTemplate "a {tags} b {content} c {filename} d".data = true ∧
      format_custom_llm_prompt "a {tags} b {content} c {filename} d".data
          "T".data "C".data "F".data
        = .ok (substPlaceholders "T".data "C".data "F".data
            "a {tags} b {content} c {filename} d".data)) :=
  ⟨by decide, by simp [checkTemplate, List.isPrefixOf],
    (format_custom_llm_prompt_spec "a {tags} b {content} c {filename} d".data
      "T".data "C".data "F".data).2 (by decide)
      (by simp [checkTemplate, List.isPrefixOf])⟩

/-- C9 counterexample: a template containing all three required tokens
plus one extra replacement field makes `str.format` raise, so the claim's
unconditional substitution result does not hold on the code. -/
theorem format_custom_llm_prompt_counterexample :
    (requiredPlaceholders.filter (fun p =>
        !(containsSub p "{tags}{content}{filename}{x}".data))) = [] ∧
    format_custom_llm_prompt "{tags}{content}{filename}{x}".data
        "T".data "C".data "F".data = .error (.badField "x".data) := by
  refine ⟨by decide, ?_⟩
  unfold format_custom_llm_prompt
  rw [if_neg (by decide)]
  have e1 : pyFormat "T".data "C".data "F".data
      "{tags}{content}{filename}{x}".data
      = pyFormatField "T".data "C".data "F".data []
          ("tags".data ++ '}' :: "{content}{filename}{x}".data) := by
    simp [pyFormat]
  rw [e1, pyFormatField_tags]
  have e2 : pyFormat "T".data "C".data "F".data
      "{content}{filename}{x}".data
      = pyFormatField "T".data "C".data "F".data []
          ("content".data ++ '}' :: "{filename}{x}".data) := by
    simp [pyFormat]
  rw [e2, pyFormatField_content]
  have e3 : pyFormat "T".data "C".data "F".data "{filename}{x}".data
      = pyFormatField "T".data "C".data "F".data []
          ("filename".data ++ '}' :: "{x}".data) := by
    simp [pyFormat]
  rw [e3, pyFormatField_filename]
  have e4 : pyFormat "T".data "C".data "F".data "{x}".data
      = pyFormatField "T".data "C".data "F".data [] ("x".data ++ ['}']) := by
    simp [pyFormat]
  have e5 : pyFormatField "T".data "C".data "F".data [] ("x".data ++ ['}'])
      = .error (.badField "x".data) := by
    rw [show ("x".data ++ ['}'] : List Char) = "x".data ++ '}' :: [] from rfl]
    rw [pyFormatField_walk _ _ _ "x".data (by decide) [] []]
    simp
  rw [e4, e5]
  rfl

/-! ## Lemmas and theorems for the orchestrator -/

theorem mem_dictInsert {K V : Type} [DecidableEq K] {d : List (K × V)}
    {p : K × V} {kr : K × V} (h : kr ∈ dictInsert d p) :
    kr ∈ d ∨ kr.2 = p.2 := by
  unfold dictInsert at h
  by_cases hany : d.any (fun x => x.1 = p.1)
  · rw [if_pos hany] at h
    obtain ⟨x, hx, hxe⟩ := List.mem_map.mp h
    by_cases hxk : x.1 = p.1
    · rw [if_pos hxk] at hxe
      right
      rw [← hxe]
    · rw [if_neg hxk] at hxe
      left
      rw [← hxe]
      exact hx
  · rw [if_neg hany] at h
    rcases List.mem_append.mp h with h | h
    · exact .inl h
    · right
      rw [List.mem_singleton.mp h]

theorem dictInsert_cons_ne {K V : Type} [DecidableEq K] (y : K × V)
    (d : List (K × V)) (p : K × V) (h : ¬ y.1 = p.1) :
    dictInsert (y :: d) p = y :: dictInsert d p := by
  unfold dictInsert
  rw [List.any_cons]
  have hdy : (decide (y.1 = p.1)) = false := by simpa using h
  rw [hdy, Bool.false_or]
  by_cases hd : d.any (fun x => x.1 = p.1)
  · rw [if_pos hd, if_pos hd, List.map_cons, if_neg h]
  · rw [if_neg hd, if_neg hd, List.cons_append]

theorem dictGet_dictInsert_self {K V : Type} [DecidableEq K]
    (d : List (K × V)) (k : K) (v : V) :
    dictGet (dictInsert d (k, v)) k = some v := by
  induction d with
  | nil => simp [dictInsert, dictGet]
  | cons y d ih =>
    by_cases hy : y.1 = k
    · have hins : dictInsert (y :: d) (k, v)
          = (y.1, v) :: d.map (fun x => if x.1 = k then (x.1, v) else x) := by
        unfold dictInsert
        rw [if_pos (by
          rw [List.any_cons]
          simp [hy])]
        rw [List.map_cons, if_pos hy]
      rw [hins]
      unfold dictGet
      rw [List.find?_cons_of_pos _ (by simpa using hy)]
      rfl
    · rw [dictInsert_cons_ne y d (k, v) hy]
      unfold dictGet
      rw [List.find?_cons_of_neg _ (by simpa using hy)]
      exact ih

theorem dictGet_map_subst {K V : Type} [DecidableEq K] (d : List (K × V))
    (p : K × V) (k : K) (h : p.1 ≠ k) :
    dictGet (d.map (fun x => if x.1 = p.1 then (x.1, p.2) else x)) k
      = dictGet d k := by
  induction d with
  | nil => rfl
  | cons y d ih =>
    unfold dictGet
    rw [List.map_cons]
    by_cases hy : y.1 = p.1
    · rw [if_pos hy]
      rw [List.find?_cons_of_neg _ (by
          simp only [decide_eq_true_eq]
          rw [hy]
          exact h),
        List.find?_cons_of_neg _ (by
          simp only [decide_eq_true_eq]
          rw [hy]
          exact h)]
      exact ih
    · rw [if_neg hy]
      by_cases hyk : y.1 = k
      · rw [List.find?_cons_of_pos _ (by simpa using hyk),
          List.find?_cons_of_pos _ (by simpa using hyk)]
      · rw [List.find?_cons_of_neg _ (by simpa using hyk),
          List.find?_cons_of_neg _ (by simpa using hyk)]
        exact ih

theorem dictGet_dictInsert_ne {K V : Type} [DecidableEq K]
    (d : List (K × V)) (p : K × V) (k : K) (h : p.1 ≠ k) :
    dictGet (dictInsert d p) k = dictGet d k := by
  unfold dictInsert
  by_cases hany : d.any (fun x => x.1 = p.1)
  · rw [if_pos hany]
    exact dictGet_map_subst d p k h
  · rw [if_neg hany]
    unfold dictGet
    rw [List.find?_append]
    have h2 : [p].find? (fun x => x.1 = k) = none := by
      rw [List.find?_eq_none]
      intro x hx
      rw [List.mem_singleton.mp hx]
      simpa using h
    rw [h2, Option.or_none]

theorem dictGet_isSome_dictInsert {K V : Type} [DecidableEq K]
    (d : List (K × V)) (p : K × V) (k : K) (h : (dictGet d k).isSome) :
    (dictGet (dictInsert d p) k).isSome := by
  by_cases hp : p.1 = k
  · obtain ⟨p1, p2⟩ := p
    simp only at hp
    subst hp
    rw [dictGet_dictInsert_self]
    rfl
  · rw [dictGet_dictInsert_ne _ _ _ hp]
    exact h

theorem foldl_runStep_records (tp : TaggerParams) (env : Env) (maxB : Nat)
    (mode : ProcessingMode) (P : ObjectTags → Prop)
    (hstep : ∀ key, P (processOne tp env maxB mode key).1) :
    ∀ (l : List String)
      (acc : List (String × ObjectTags)
        × List (String × List (String × String))),
      (∀ kr ∈ acc.1, P kr.2) →
      ∀ kr ∈ (l.foldl (runStep tp env maxB mode) acc).1, P kr.2 := by
  intro l
  induction l with
  | nil => exact fun acc hacc kr hkr => hacc kr hkr
  | cons key l ih =>
    intro acc hacc kr hkr
    rw [List.foldl_cons] at hkr
    refine ih (runStep tp env maxB mode acc key) ?_ kr hkr
    intro kr2 hkr2
    unfold runStep add_result at hkr2
    rcases mem_dictInsert hkr2 with h | h
    · exact hacc kr2 h
    · rw [h]
      exact hstep key

theorem foldl_runStep_writes (tp : TaggerParams) (env : Env) (maxB : Nat)
    (mode : ProcessingMode)
    (hstep : ∀ key, (processOne tp env maxB mode key).2 = []) :
    ∀ (l : List String) acc,
      (l.foldl (runStep tp env maxB mode) acc).2 = acc.2 := by
  intro l
  induction l with
  | nil => intro acc; rfl
  | cons key l ih =>
    intro acc
    rw [List.foldl_cons, ih]
    unfold runStep
    rw [hstep key, List.append_nil]

theorem foldl_runStep_get_of_not_mem (tp : TaggerParams) (env : Env)
    (maxB : Nat) (mode : ProcessingMode) (k : String) :
    ∀ (l : List String) acc, (∀ key ∈ l, key ≠ k) →
      dictGet (l.foldl (runStep tp env maxB mode) acc).1 k
        = dictGet acc.1 k := by
  intro l
  induction l with
  | nil => intro acc _; rfl
  | cons key l ih =>
    intro acc hne
    rw [List.foldl_cons, ih _ (fun x hx => hne x (List.mem_cons_of_mem key hx))]
    unfold runStep add_result
    exact dictGet_dictInsert_ne _ _ _ (hne key (List.mem_cons_self key l))

theorem foldl_runStep_get_processed (tp : TaggerParams) (env : Env)
    (maxB : Nat) (mode : ProcessingMode) (k : String) :
    ∀ (l : List String) acc, k ∈ l → l.Nodup →
      dictGet (l.foldl (runStep tp env maxB mode) acc).1 k
        = some (processOne tp env maxB mode k).1 := by
  intro l
  induction l with
  | nil => intro acc h; cases h
  | cons key l ih =>
    intro acc hmem hnd
    rw [List.nodup_cons] at hnd
    rw [List.foldl_cons]
    rcases List.mem_cons.mp hmem with rfl | hmem2
    · rw [foldl_runStep_get_of_not_mem tp env maxB mode k l _
        (fun x hx he => hnd.1 (he ▸ hx))]
      unfold runStep add_result
      exact dictGet_dictInsert_self _ _ _
    · exact ih _ hmem2 hnd.2

theorem foldl_runStep_get_isSome (tp : TaggerParams) (env : Env)
    (maxB : Nat) (mode : ProcessingMode) (k : String) :
    ∀ (l : List String) acc,
      (k ∈ l ∨ (dictGet acc.1 k).isSome) →
      (dictGet (l.foldl (runStep tp env maxB mode) acc).1 k).isSome := by
  intro l
  induction l with
  | nil =>
    intro acc h
    rcases h with h | h
    · cases h
    · exact h
  | cons key l ih =>
    intro acc hmem
    rw [List.foldl_cons]
    by_cases hk : key = k
    · subst hk
      refine ih _ (.inr ?_)
      unfold runStep add_result
      rw [dictGet_dictInsert_self]
      rfl
    · rcases hmem with hmem | hsome
      · rcases List.mem_cons.mp hmem with h | h
        · exact absurd h.symm hk
        · exact ih _ (.inl h)
      · refine ih _ (.inr ?_)
        unfold runStep add_result
        exact dictGet_isSome_dictInsert _ _ _ hsome

theorem processOne_preview_writes (tp : TaggerParams) (env : Env)
    (maxB : Nat) (key : String) :
    (processOne tp env maxB .preview key).2 = [] := by
  unfold processOne
  split
  · rfl
  · split
    · rfl
    · rfl

theorem processOne_preview_record (tp : TaggerParams) (env : Env)
    (maxB : Nat) (key : String) :
    (processOne tp env maxB .preview key).1.skipped_reason = none →
      (processOne tp env maxB .preview key).1.proposed.isSome
        ∧ (processOne tp env maxB .preview key).1.applied = none := by
  unfold processOne
  split
  · intro h
    simp [create_object_tags_result] at h
  · split
    · intro h
      simp [create_object_tags_result] at h
    · intro _
      simp [create_object_tags_result]

theorem processOne_record_invariant (tp : TaggerParams) (env : Env)
    (maxB : Nat) (mode : ProcessingMode) (key : String) :
    ((processOne tp env maxB mode key).1.applied.isSome →
      (processOne tp env maxB mode key).1.skipped_reason = none
        ∧ (processOne tp env maxB mode key).1.proposed.isSome) ∧
    ((processOne tp env maxB mode key).1.skipped_reason.isSome →
      (processOne tp env maxB mode key).1.applied = none) := by
  unfold processOne
  split
  · simp [create_object_tags_result]
  · split
    · simp [create_object_tags_result]
    · split
      · simp [create_object_tags_result]
      · split
        · simp [create_object_tags_result]
        · split <;> simp [create_object_tags_result]

/-- C6: the preview operation performs no writes (the storage backend's
set-tags operation is never invoked), returns a result in Preview mode,
and every non-skip record has proposed tags populated and applied tags
absent. -/
theorem preview_tags_no_writes (tp : TaggerParams) (env : Env)
    (maxOverride : Option Nat) :
    (preview_tags tp env maxOverride).2 = [] ∧
    (preview_tags tp env maxOverride).1.mode = .preview ∧
    ∀ kr ∈ (preview_tags tp env maxOverride).1.results,
      kr.2.skipped_reason = none →
        kr.2.proposed.isSome ∧ kr.2.applied = none := by
  unfold preview_tags processObjects
  by_cases hobj : env.objects = []
  · rw [if_pos hobj]
    refine ⟨rfl, rfl, ?_⟩
    intro kr hkr
    cases hkr
  · rw [if_neg hobj]
    refine ⟨?_, rfl, ?_⟩
    · exact foldl_runStep_writes tp env _ .preview
        (processOne_preview_writes tp env _) env.objects ([], [])
    · exact foldl_runStep_records tp env _ .preview
        (fun r => r.skipped_reason = none → r.proposed.isSome ∧ r.applied = none)
        (processOne_preview_record tp env _) env.objects ([], [])
        (fun kr hkr => absurd hkr (List.not_mem_nil kr))

theorem preview_tags_no_writes_witness :
    (("b.txt", exampleRecordPreview)
        ∈ (preview_tags exampleParams exampleEnv none).1.results) ∧
    (exampleRecordPreview.proposed.isSome
      ∧ exampleRecordPreview.applied = none) :=
  ⟨by decide,
    (preview_tags_no_writes exampleParams exampleEnv none).2.2
      ("b.txt", exampleRecordPreview) (by decide) (by decide)⟩

/-- C7: every per-object record of a run satisfies the invariant: applied
tags present implies no skip reason and proposed tags present; a skip
reason present implies applied tags absent. -/
theorem processObjects_record_invariant (tp : TaggerParams) (env : Env)
    (mode : ProcessingMode) (maxOverride : Option Nat) :
    (∀ kr ∈ (processObjects tp env mode maxOverride).1.results,
      (kr.2.applied.isSome →
        kr.2.skipped_reason = none ∧ kr.2.proposed.isSome) ∧
      (kr.2.skipped_reason.isSome → kr.2.applied = none)) ∧
    (env.objects.Nodup →
      ∀ k ∈ env.objects, env.supported k = true →
      ∀ (existing_tags proposed_tags : List (String × String)) (e : String),
        pipelineBeforeMode tp env
            (resolveMaxBytes maxOverride tp.config.max_bytes) k
          = .ok (existing_tags, proposed_tags) →
        (merge_and_validate_tags existing_tags proposed_tags
            (tp.config.tags.map (fun kv => kv.1)) tp.storage_provider_type
            = .error e ∨
          (∃ final_tags, merge_and_validate_tags existing_tags proposed_tags
              (tp.config.tags.map (fun kv => kv.1)) tp.storage_provider_type
              = .ok final_tags ∧ env.setObjectTags k final_tags = .error e)) →
        dictGet (processObjects tp env .apply maxOverride).1.results k
          = some (create_object_tags_result existing_tags (some proposed_tags)
              none (some ("Failed to apply tags: " ++ e)))) := by
  constructor
  · unfold processObjects
    by_cases hobj : env.objects = []
    · rw [if_pos hobj]
      intro kr hkr
      cases hkr
    · rw [if_neg hobj]
      exact foldl_runStep_records tp env _ mode
        (fun r => (r.applied.isSome → r.skipped_reason = none ∧ r.proposed.isSome)
          ∧ (r.skipped_reason.isSome → r.applied = none))
        (processOne_record_invariant tp env _ mode) env.objects ([], [])
        (fun kr hkr => absurd hkr (List.not_mem_nil kr))
  · intro hnd k hmem hsup existing_tags proposed_tags e hpipe hfail
    have hobj : env.objects ≠ [] := by
      intro h
      rw [h] at hmem
      cases hmem
    have hone : (processOne tp env
        (resolveMaxBytes maxOverride tp.config.max_bytes) .apply k).1
        = create_object_tags_result existing_tags (some proposed_tags) none
            (some ("Failed to apply tags: " ++ e)) := by
      unfold processOne
      rw [if_neg (by simp [hsup])]
      simp only [hpipe]
      rcases hfail with herr | ⟨final_tags, hok, hset⟩
      · simp only [herr]
      · simp only [hok, hset]
    unfold processObjects
    rw [if_neg hobj]
    rw [foldl_runStep_get_processed tp env _ .apply k env.objects ([], [])
      hmem hnd, hone]

theorem processObjects_record_invariant_witness :
    ((("b.txt", exampleRecordApplied)
        ∈ (processObjects exampleParams exampleEnv .apply none).1.results) ∧
      (exampleRecordApplied.applied.isSome →
        exampleRecordApplied.skipped_reason = none
          ∧ exampleRecordApplied.proposed.isSome)) ∧
    (exampleEnvWriteFail.objects.Nodup ∧
      "b.txt" ∈ exampleEnvWriteFail.objects ∧
      exampleEnvWriteFail.supported "b.txt" = true ∧
      dictGet (processObjects exampleParams exampleEnvWriteFail
          .apply none).1.results "b.txt"
        = some (create_object_tags_result [("env", "prod")]
            (some [("department", "engineering")]) none
            (some ("Failed to apply tags: " ++ "denied")))) :=
  ⟨⟨by decide,
      ((processObjects_record_invariant exampleParams exampleEnv .apply none).1
        ("b.txt", exampleRecordApplied) (by decide)).1⟩,
    ⟨by decide, by decide, by decide,
      (processObjects_record_invariant exampleParams exampleEnvWriteFail
          .apply none).2 (by decide) "b.txt" (by decide) (by decide)
        [("env", "prod")] [("department", "engineering")] "denied" (by decide)
        (.inr ⟨[("env", "prod"), ("department", "engineering")],
          by decide, by decide⟩)⟩⟩

theorem processing_error_ne_empty (e : String) :
    ("Processing error: " ++ e) ≠ "" := by
  intro h
  have hlen := congrArg String.length h
  rw [String.length_append] at hlen
  have : (18 : Nat) + e.length = 0 := by
    have h18 : ("Processing error: " : String).length = 18 := by decide
    rw [h18] at hlen
    exact hlen
  omega

/-- C5: a failure raised while fetching, decoding, prompting or parsing an
object is caught at that object's boundary: the run records a result with
a non-empty skip reason, no proposed tags, no applied tags and empty
existing tags for that object, the run still returns normally, and every
enumerated object still gets a record. -/
theorem processObjects_error_skip (tp : TaggerParams) (env : Env)
    (mode : ProcessingMode) (maxOverride : Option Nat) (k : String)
    (e : String) (hmem : k ∈ env.objects) (hnd : env.objects.Nodup)
    (hsup : env.supported k = true)
    (herr : pipelineBeforeMode tp env
      (resolveMaxBytes maxOverride tp.config.max_bytes) k = .error e) :
    dictGet (processObjects tp env mode maxOverride).1.results k
        = some (create_object_tags_result [] none none
            (some ("Processing error: " ++ e))) ∧
    ("Processing error: " ++ e) ≠ "" ∧
    (∀ kk ∈ env.objects,
      (dictGet (processObjects tp env mode maxOverride).1.results kk).isSome) := by
  have hobj : env.objects ≠ [] := by
    intro h
    rw [h] at hmem
    cases hmem
  have hone : (processOne tp env (resolveMaxBytes maxOverride tp.config.max_bytes)
      mode k).1
      = create_object_tags_result [] none none
          (some ("Processing error: " ++ e)) := by
    unfold processOne
    rw [if_neg (by simp [hsup]), herr]
  unfold processObjects
  rw [if_neg hobj]
  refine ⟨?_, processing_error_ne_empty e, ?_⟩
  · rw [foldl_runStep_get_processed tp env _ mode k env.objects ([], []) hmem hnd]
    rw [hone]
  · intro kk hkk
    exact foldl_runStep_get_isSome tp env _ mode kk env.objects ([], [])
      (.inl hkk)

theorem processObjects_error_skip_witness :
    ("a.txt" ∈ exampleEnv.objects ∧ exampleEnv.objects.Nodup ∧
      exampleEnv.supported "a.txt" = true ∧
      pipelineBeforeMode exampleParams exampleEnv
        (resolveMaxBytes none exampleParams.config.max_bytes) "a.txt"
        = .error "boom") ∧
    dictGet (processObjects exampleParams exampleEnv .preview none).1.results
        "a.txt"
      = some (create_object_tags_result [] none none
          (some ("Processing error: " ++ "boom"))) :=
  ⟨⟨by decide, by decide, by decide, by decide⟩,
    (processObjects_error_skip exampleParams exampleEnv .preview none
      "a.txt" "boom" (by decide) (by decide) (by decide) (by decide)).1⟩

/-- C8 (amended): for a run whose enumeration yields at least one object,
the result's summary is the derived statistics: total = number of
records, processed = records with proposed tags, skipped = records with a
skip reason, applied = records with applied tags, success rate =
processed/total (0 if total is 0).  A run with zero objects instead
returns a message-only summary (see the counterexample). -/
theorem processObjects_summary_stats (tp : TaggerParams) (env : Env)
    (mode : ProcessingMode) (maxOverride : Option Nat)
    (hne : env.objects ≠ []) :
    (processObjects tp env mode maxOverride).1.summary
      = .stats (processObjects tp env mode maxOverride).1.results.length
          ((processObjects tp env mode maxOverride).1.results.countP
            (fun kv => kv.2.proposed.isSome))
          ((processObjects tp env mode maxOverride).1.results.countP
            (fun kv => kv.2.skipped_reason.isSome))
          ((processObjects tp env mode maxOverride).1.results.countP
            (fun kv => kv.2.applied.isSome))
          (if 0 < (processObjects tp env mode maxOverride).1.results.length then
            (((processObjects tp env mode maxOverride).1.results.countP
                (fun kv => kv.2.proposed.isSome) : Nat) : Rat)
              / (((processObjects tp env mode maxOverride).1.results.length
                : Nat) : Rat)
          else 0) := by
  unfold processObjects
  rw [if_neg hne]
  rfl

theorem processObjects_summary_stats_witness :
    exampleEnv.objects ≠ [] ∧
    (processObjects exampleParams exampleEnv .preview none).1.summary
      = .stats
          (processObjects exampleParams exampleEnv .preview none).1.results.length
          ((processObjects exampleParams exampleEnv .preview none).1.results.countP
            (fun kv => kv.2.proposed.isSome))
          ((processObjects exampleParams exampleEnv .preview none).1.results.countP
            (fun kv => kv.2.skipped_reason.isSome))
          ((processObjects exampleParams exampleEnv .preview none).1.results.countP
            (fun kv => kv.2.applied.isSome))
          (if 0 < (processObjects exampleParams exampleEnv
              .preview none).1.results.length then
            (((processObjects exampleParams exampleEnv .preview none).1.results.countP
                (fun kv => kv.2.proposed.isSome) : Nat) : Rat)
              / (((processObjects exampleParams exampleEnv
                  .preview none).1.results.length : Nat) : Rat)
          else 0) :=
  ⟨by decide,
    processObjects_summary_stats exampleParams exampleEnv .preview none
      (by decide)⟩

/-- C8 counterexample: a run whose enumeration yields zero objects returns
a message-only summary, not the derived counts the claim prescribes
(total 0, all counts 0, success rate 0). -/
theorem processObjects_empty_summary_counterexample :
    (processObjects exampleParams emptyEnv .preview none).1.summary
        = .message "No objects found in bucket" ∧
    (processObjects exampleParams emptyEnv .preview none).1.summary
        ≠ .stats 0 0 0 0 0 := by
  constructor
  · rfl
  · intro h
    rw [show (processObjects exampleParams emptyEnv .preview none).1.summary
        = .message "No objects found in bucket" from rfl] at h
    cases h

end SmartCloudTag
